import Mathlib

/-!
# random-generator-nfts: a verification development

A shallow embedding of the catalog validator, the weighted selector, the
size-bounded compressor, the token middleware and the `/generate` handler of
the repository (`src/utils.js`, `src/jwt.js`, `src/index.js`), with the
properties of the specification stated and settled over it.

JavaScript strings are lists of characters, thrown errors are `Except.error`
carrying the message, and everything the code reads from outside (directory
listings, random draws, decoded image sizes, encoded byte sizes, upload
answers) is an explicit argument.
-/

namespace NftGen

/-- JavaScript strings, as lists of characters. -/
abbrev Str := List Char

/-- Equality of results is decidable when it is so for errors and values. -/
instance instDecidableEqExcept {ε α : Type} [DecidableEq ε] [DecidableEq α] :
    DecidableEq (Except ε α)
  | .error a, .error b =>
    if h : a = b then isTrue (by rw [h]) else isFalse (fun h2 => h (by cases h2; rfl))
  | .ok a, .ok b =>
    if h : a = b then isTrue (by rw [h]) else isFalse (fun h2 => h (by cases h2; rfl))
  | .error _, .ok _ => isFalse (fun h => by cases h)
  | .ok _, .error _ => isFalse (fun h => by cases h)

/-! ## `src/utils.js`: the weighted selector -/

/-- One entry of a segment, `{ file, weight }` (`src/utils.js`, lines 83-86). -/
structure Image where
  file : Str
  weight : Nat
deriving DecidableEq, Repr

/-- The sum `elements.reduce((sum, el) => sum + el.weight, 0)`. -/
def totalWeight (elements : List Image) : Nat :=
  elements.foldl (fun sum el => sum + el.weight) 0

/-- The `for (let el of elements)` loop of `getRandomElement`, with the running
`sum` as an argument: `none` is falling off the end of the loop (`undefined`). -/
def getRandomElementLoop (random : Nat) : List Image → Nat → Option Image
  | [], _ => none
  | el :: rest, sum =>
    if random < sum + el.weight then some el
    else getRandomElementLoop random rest (sum + el.weight)

/-- The function `getRandomElement`, the draw `Math.floor(Math.random() * totalWeight)`
being the argument `random`. -/
def getRandomElement (elements : List Image) (random : Nat) : Option Image :=
  getRandomElementLoop random elements 0

/-- The same loop, reporting the position at which it returns instead of the
element found there (JavaScript returns the object itself, whose identity is its
position in the array). The argument `pos` is the position of the head. -/
def getRandomPositionLoop (random : Nat) : List Image → Nat → Nat → Option Nat
  | [], _, _ => none
  | el :: rest, sum, pos =>
    if random < sum + el.weight then some pos
    else getRandomPositionLoop random rest (sum + el.weight) (pos + 1)

/-- The position of the element `getRandomElement` returns. -/
def getRandomPosition (elements : List Image) (random : Nat) : Option Nat :=
  getRandomPositionLoop random elements 0 0

/-- The weight accumulated before position `i`. -/
def weightBefore (elements : List Image) (i : Nat) : Nat :=
  totalWeight (elements.take i)

/-! ## `src/utils.js`: JavaScript primitives used by the validator -/

/-- Characters `parseInt` skips at the start of its argument: the white space and
line terminators of ECMAScript (`StrWhiteSpaceChar`). -/
def isStrWhiteSpace (c : Char) : Bool :=
  c.toNat ∈ [0x9, 0xA, 0xB, 0xC, 0xD, 0x20, 0xA0, 0x1680, 0x2028, 0x2029, 0x202F,
    0x205F, 0x3000, 0xFEFF] || (0x2000 ≤ c.toNat && c.toNat ≤ 0x200A)

/-- The value of a character as a digit of `parseInt`: `0-9`, then `a-z` or `A-Z`
for 10 to 35. -/
def digitValue (c : Char) : Option Nat :=
  if c.isDigit then some (c.toNat - 48)
  else if c.isLower then some (c.toNat - 87)
  else if c.isUpper then some (c.toNat - 55)
  else none

/-- The longest prefix of `s` made of digits of radix `R`, as digit values. -/
def radixDigits (R : Nat) : Str → List Nat
  | [] => []
  | c :: rest =>
    match digitValue c with
    | some d => if d < R then d :: radixDigits R rest else []
    | none => []

/-- The sign of `parseInt`: a leading `-` or `+` is consumed. -/
def parseSign : Str → Int × Str
  | '-' :: rest => (-1, rest)
  | '+' :: rest => (1, rest)
  | s => (1, s)

/-- The prefix step of `parseInt`: `0x` or `0X` selects radix 16 when allowed. -/
def parsePrefix (stripPrefix : Bool) (R : Nat) : Str → Nat × Str
  | '0' :: 'x' :: rest => if stripPrefix then (16, rest) else (R, '0' :: 'x' :: rest)
  | '0' :: 'X' :: rest => if stripPrefix then (16, rest) else (R, '0' :: 'X' :: rest)
  | s => (R, s)

/-- The function `parseInt(string, radix)` of ECMAScript; radix 0 stands for an
absent radix and `none` for `NaN`. The result is the exact integer: JavaScript
rounds it to a double, which changes nothing below `2^53` and leaves every larger
value larger than the bounds (100) it is compared with in this program. -/
def parseInt (s : Str) (radix : Nat) : Option Int :=
  let (sign, S) := parseSign (s.dropWhile isStrWhiteSpace)
  if radix ≠ 0 ∧ (radix < 2 ∨ 36 < radix) then none
  else
    let (R, S) := parsePrefix (radix = 0 ∨ radix = 16) (if radix = 0 then 10 else radix) S
    let Z := radixDigits R S
    if Z = [] then none
    else some (sign * (Z.foldl (fun acc d => acc * R + d) 0 : Nat))

/-- The method `String.prototype.split` with a one-character separator. -/
def split (sep : Char) : Str → List Str
  | [] => [[]]
  | c :: rest =>
    if c = sep then [] :: split sep rest
    else
      match split sep rest with
      | [] => [[c]]
      | p :: ps => (c :: p) :: ps

/-- The template `${i}` of a natural number. -/
def natToStr (i : Nat) : Str := (Nat.repr i).toList

/-- `Array.prototype.map` with a callback that may throw: the first throw aborts
the whole map. -/
def mapOrThrow {α β : Type} (f : α → Except Str β) : List α → Except Str (List β)
  | [] => .ok []
  | a :: rest =>
    match f a with
    | .error e => .error e
    | .ok b =>
      match mapOrThrow f rest with
      | .error e => .error e
      | .ok bs => .ok (b :: bs)

/-- The test `/^\d+$/.test(folder)`: a non-empty string of the digits `0-9`. -/
def digitsRegexTest (folder : Str) : Bool :=
  !folder.isEmpty && folder.all Char.isDigit

/-- The character class `[a-zA-Z0-9áéíóúÁÉÍÓÚüÜñÑ]` of `filenameRegex`. All its
members are single UTF-16 code units, so matching by character and by code unit
agree. -/
def isTokenChar (c : Char) : Bool :=
  c.isLower || c.isUpper || c.isDigit ||
    c ∈ ['á', 'é', 'í', 'ó', 'ú', 'Á', 'É', 'Í', 'Ó', 'Ú', 'ü', 'Ü', 'ñ', 'Ñ']

/-- One `X+` of a regular expression, matched greedily: at least one character of
the class, and what follows the run. -/
def many1 (p : Char → Bool) (s : Str) : Option Str :=
  if (s.takeWhile p).isEmpty then none else some (s.dropWhile p)

/-- A literal of a regular expression: the string must start with `lit`. -/
def literal : Str → Str → Option Str
  | [], s => some s
  | _ :: _, [] => none
  | l :: ls, c :: rest => if c = l then literal ls rest else none

/-- The test of
`/^[a-zA-Z0-9áéíóúÁÉÍÓÚüÜñÑ]+-[a-zA-Z0-9áéíóúÁÉÍÓÚüÜñÑ]+-\d+-\d+\.png$/`.
Every `+` run is followed by a literal outside its class (`-` or `.`), so the
greedy scan with no backtracking decides the match. -/
def filenameRegexTest (file : Str) : Bool :=
  ((((((((some file).bind (many1 isTokenChar)).bind (literal ['-'])).bind
    (many1 isTokenChar)).bind (literal ['-'])).bind (many1 Char.isDigit)).bind
    (literal ['-'])).bind (many1 Char.isDigit)).bind (literal ".png".toList) == some []

/-! ## `src/utils.js`: `getSegmentImages` -/

/-- One segment, `{ images }` (`src/utils.js`, line 101). -/
structure Segment where
  images : List Image
deriving DecidableEq, Repr

/-- The callback of `segmentFolders.map` (lines 38-44). -/
def folderNumber (folder : Str) : Except Str Int :=
  match parseInt folder 0 with
  | none => .error ("Segment folder name must be a number: ".toList ++ folder)
  | some num =>
    if !digitsRegexTest folder then
      .error ("Segment folder name must be a number: ".toList ++ folder)
    else .ok num

/-- The loop of lines 55-59 from index `i` on. -/
def checkNumbering : List Int → Nat → Except Str Unit
  | [], _ => .ok ()
  | n :: rest, i =>
    if n ≠ (i : Int) then
      .error ("Segment folder ".toList ++ natToStr i ++ " is missing or misnamed.".toList)
    else checkNumbering rest (i + 1)

/-- The layout stage of `getSegmentImages` (lines 37-59) on the listing
`segmentFolders`; it yields the sorted segment numbers. `sort((a, b) => a - b)`
is the ascending sort. -/
def layoutStage (segmentFolders : List Str) : Except Str (List Int) :=
  match mapOrThrow folderNumber segmentFolders with
  | .error e => .error e
  | .ok numbers =>
    let segmentNumbers := numbers.insertionSort (· ≤ ·)
    if segmentNumbers.length < 1 ∨ segmentNumbers.length > 100 then
      .error "The number of segments must be between 1 and 100.".toList
    else
      match checkNumbering segmentNumbers 0 with
      | .error e => .error e
      | .ok () => .ok segmentNumbers

/-- The callback of `imageFiles.map` (lines 66-87). An absent third field is
`undefined`, which `parseInt` reads as the string `undefined`. -/
def imageOfFile (segmentPath file : Str) : Except Str Image :=
  if !filenameRegexTest file then .error ("Invalid image file name: ".toList ++ file)
  else
    let weight := ((split '-' file).get? 2).getD "undefined".toList
    match parseInt weight 10 with
    | none => .error ("Invalid weight in file name: ".toList ++ file)
    | some weightNumber =>
      if weightNumber < 1 ∨ weightNumber > 100 then
        .error ("Invalid weight in file name: ".toList ++ file)
      else .ok { file := segmentPath ++ "/".toList ++ file, weight := weightNumber.toNat }

/-- The body of the loop of lines 62-102 for one `segmentFolder`; `fs.readdir` is
the argument `readdir`, and `foldersPath` is the path
`path.join(__dirname, 'images', imagesFolderPath)`, so that `segmentPath` is
`foldersPath/segmentFolder`. The size of `new Set(...)` is the number of distinct
paths. -/
def segmentOfFolder (readdir : Str → Except Str (List Str)) (foldersPath segmentFolder : Str) :
    Except Str Segment :=
  let segmentPath := foldersPath ++ "/".toList ++ segmentFolder
  match readdir segmentPath with
  | .error e => .error e
  | .ok imageFiles =>
    match mapOrThrow (imageOfFile segmentPath) imageFiles with
    | .error e => .error e
    | .ok images =>
      if images.length < 1 ∨ images.length > 100 then
        .error ("The number of images in segment ".toList ++ segmentFolder ++
          " must be between 1 and 100.".toList)
      else if (images.map (fun el => el.file)).dedup.length ≠ images.length then
        .error ("Duplicate file names found in segment ".toList ++ segmentFolder ++ ".".toList)
      else .ok { images := images }

/-- The `try` block of `getSegmentImages` (lines 33-102): its value is the array
`segments`, or the error thrown inside the block. -/
def getSegmentImagesTry (readdir : Str → Except Str (List Str)) (foldersPath : Str) :
    Except Str (List Segment) :=
  match readdir foldersPath with
  | .error e => .error e
  | .ok segmentFolders =>
    match layoutStage segmentFolders with
    | .error e => .error e
    | .ok _ => mapOrThrow (segmentOfFolder readdir foldersPath) segmentFolders

/-- The function `getSegmentImages`: the `catch` of lines 103-107 replaces every
error by `new Error('Failed to fetch segment images: ', error)`, whose message is
the first argument alone. -/
def getSegmentImages (readdir : Str → Except Str (List Str)) (foldersPath : Str) :
    Except Str (List Segment) :=
  match getSegmentImagesTry readdir foldersPath with
  | .error _ => .error "Failed to fetch segment images: ".toList
  | .ok segments => .ok segments

/-! ## Notions of the specification for the validator -/

/-- A string of base-10 digits: non-empty, every character one of `0-9`. -/
def IsDigitString (s : Str) : Prop := s ≠ [] ∧ ∀ c ∈ s, c.isDigit = true

instance (s : Str) : Decidable (IsDigitString s) := by
  unfold IsDigitString; exact inferInstance

/-- The number a string of digits denotes in base 10. -/
def decimalValue (s : Str) : Nat :=
  s.foldl (fun acc c => 10 * acc + (c.toNat - 48)) 0

/-- A string of token characters: non-empty, every character in the class of
`traitType` and `traitValue`. -/
def IsToken (s : Str) : Prop := s ≠ [] ∧ ∀ c ∈ s, isTokenChar c = true

/-- The file-name grammar `traitType-traitValue-weight-ordinal.png`, with the
four fields named. -/
def MatchesGrammar (name traitType traitValue weight ordinal : Str) : Prop :=
  IsToken traitType ∧ IsToken traitValue ∧ IsDigitString weight ∧ IsDigitString ordinal ∧
    name = traitType ++ '-' :: (traitValue ++ '-' :: (weight ++ '-' :: (ordinal ++ ".png".toList)))

/-! ## Catalogs on disk -/

/-- A directory tree given as a table from directory paths to their listings, in
the order `fs.readdir` answers them; a path absent from the table makes
`fs.readdir` throw. -/
def readdirOf (table : List (Str × List Str)) (path : Str) : Except Str (List Str) :=
  match table.lookup path with
  | some listing => .ok listing
  | none => .error ("ENOENT: no such file or directory, scandir ".toList ++ path)

/-- The catalog of the end-to-end scenario of the specification: segment `0` with
two backgrounds, segment `1` with one hat, listed in numeric order. -/
def scenarioCatalog : List (Str × List Str) :=
  [ ("images/c".toList, ["0".toList, "1".toList]),
    ("images/c/0".toList, ["bg-red-50-1.png".toList, "bg-blue-50-2.png".toList]),
    ("images/c/1".toList, ["hat-none-100-1.png".toList]) ]

/-- A catalog of eleven segments `0..10`, one image each, whose root is listed in
the byte order of the names (`0, 1, 10, 2, ..., 9`), the order in which a Unix
directory scan sorted by name answers. -/
def elevenCatalog : List (Str × List Str) :=
  [ ("images/e".toList, ["0".toList, "1".toList, "10".toList, "2".toList, "3".toList,
      "4".toList, "5".toList, "6".toList, "7".toList, "8".toList, "9".toList]),
    ("images/e/0".toList, ["sky-blue-1-1.png".toList]),
    ("images/e/1".toList, ["body-a-1-1.png".toList]),
    ("images/e/2".toList, ["eyes-b-1-1.png".toList]),
    ("images/e/3".toList, ["nose-c-1-1.png".toList]),
    ("images/e/4".toList, ["mouth-d-1-1.png".toList]),
    ("images/e/5".toList, ["hair-e-1-1.png".toList]),
    ("images/e/6".toList, ["ears-f-1-1.png".toList]),
    ("images/e/7".toList, ["shirt-g-1-1.png".toList]),
    ("images/e/8".toList, ["scarf-h-1-1.png".toList]),
    ("images/e/9".toList, ["hat-i-1-1.png".toList]),
    ("images/e/10".toList, ["frame-j-1-1.png".toList]) ]

/-- A catalog whose only sub-folder has a name that is not a number. -/
def badFolderCatalog : List (Str × List Str) :=
  [ ("images/b".toList, ["layers".toList]),
    ("images/b/layers".toList, ["bg-red-50-1.png".toList]) ]

/-- A catalog whose only image carries the weight 0, outside `[1,100]`. -/
def badWeightCatalog : List (Str × List Str) :=
  [ ("images/w".toList, ["0".toList]),
    ("images/w/0".toList, ["bg-red-0-1.png".toList]) ]

/-- The catalog of the scenario with its root listed in the other order, `1`
before `0`; the directories and their files are the same. -/
def scenarioCatalogReversed : List (Str × List Str) :=
  [ ("images/c".toList, ["1".toList, "0".toList]),
    ("images/c/0".toList, ["bg-red-50-1.png".toList, "bg-blue-50-2.png".toList]),
    ("images/c/1".toList, ["hat-none-100-1.png".toList]) ]

/-! ## `src/utils.js`: `compressImage` -/

/-- The size cap `10 * 1024 * 1024` of line 15. -/
def maxBytes : Nat := 10 * 1024 * 1024

/-- The body of `compressImage`, the encoder being the function `size` from a
quality to the byte size of the file it writes, and `fuel` bounding the depth of
the recursion so that it is structural. The value `.ok q` is the promise
resolving with `outputPath` holding the encoding at quality `q`. The `throw` of
line 19 is caught by the `catch` of the same call, which wraps its message once;
the recursive call is returned without `await`, so the callers' `catch` blocks
do not wrap it again. The quality drops by 5 at each call, so a fuel of
`quality` is never used up (`compressImageFrom_fuel`). -/
def compressImageFrom (size : Nat → Nat) : Nat → Nat → Except Str Nat
  | fuel, quality =>
    if size quality > 10 * 1024 * 1024 then
      if quality > 10 then
        match fuel with
        | 0 => .error "recursion bound reached".toList
        | fuel + 1 => compressImageFrom size fuel (quality - 5)
      else .error "Failed to compress image: Unable to compress image to under 10 MB".toList
    else .ok quality

/-- The function `compressImage(inputPath, outputPath, widthBase, heightBase, quality)`. -/
def compressImage (size : Nat → Nat) (quality : Nat) : Except Str Nat :=
  compressImageFrom size quality quality

/-- The qualities the specification walks: 100, 95, 90, ..., 10. -/
def qualityLadder : List Nat :=
  [100, 95, 90, 85, 80, 75, 70, 65, 60, 55, 50, 45, 40, 35, 30, 25, 20, 15, 10]

/-- The reference of the specification: succeed at the first quality of `ladder`
whose encoding fits the cap, fail when none does. -/
def compressReference (size : Nat → Nat) (ladder : List Nat) : Except Str Nat :=
  match ladder.find? (fun q => size q ≤ maxBytes) with
  | some q => .ok q
  | none => .error "Failed to compress image: Unable to compress image to under 10 MB".toList

/-- The qualities `10 + 5k, ..., 15, 10`, downwards. -/
def ladderFrom : Nat → List Nat
  | 0 => [10]
  | k + 1 => (10 + 5 * (k + 1)) :: ladderFrom k

/-! ## `src/jwt.js`: `verifyToken` -/

/-- What the middleware reads of a request: the header `authorization`. -/
structure Request where
  authorization : Option Str
deriving DecidableEq, Repr

/-- What a middleware or handler does with a request: hand it on with `next()`,
or answer with a status and the `error` and `details` fields of the body. -/
inductive Outcome where
  | next : Outcome
  | respond (status : Nat) (error : Str) (details : Option Str) : Outcome
deriving DecidableEq, Repr

/-- Lines 7-16 of `src/jwt.js`, the statements after `return next();`; the
callback answer of `jwt.verify(token, secret, cb)` is `jwtVerify token`, the
error message or `none`. The test `!token` holds of an absent and of an empty
header. -/
def verifyTokenUnreachable (jwtVerify : Str → Option Str) (req : Request) : Outcome :=
  match req.authorization with
  | none => .respond 403 "Authentication token not provided".toList none
  | some token =>
    if token.isEmpty then .respond 403 "Authentication token not provided".toList none
    else
      match jwtVerify token with
      | some err => .respond 401 "Invalid authentication token".toList (some err)
      | none => .next

/-- The middleware `verifyToken`: its first statement is `return next();` (line 6),
so the statements after it, `verifyTokenUnreachable`, never run. -/
def verifyToken (_jwtVerify : Str → Option Str) (_req : Request) : Outcome :=
  .next

/-! ## `src/index.js`: the dimension check of the composition loop

The check divides two image dimensions, which are integers held in JavaScript
numbers, and compares the quotients with `!==`. The division of ECMAScript is
the IEEE 754 binary64 one: the exact quotient rounded to the nearest number with
a 53-bit significand, ties to the even significand. -/

/-- The result of dividing two non-negative integers in JavaScript: `NaN` for
`0/0`, `Infinity` for `a/0`, `0`, or the positive number `mantissa * 2^exponent`
with `2^52 ≤ mantissa < 2^53`. -/
inductive JsQuotient where
  | nan : JsQuotient
  | infinity : JsQuotient
  | zero : JsQuotient
  | finite (mantissa : Nat) (exponent : Int) : JsQuotient
deriving DecidableEq, Repr

/-- The loop `while (2 * p <= n) { p = 2 * p; k = k + 1 }` run at most `fuel`
times: from `p = 1`, `k = 0` it ends with `p = 2^k` the leading bit of `n`. -/
def leadingBit : Nat → Nat → Nat → Nat → Nat × Nat
  | 0, _, p, k => (p, k)
  | fuel + 1, n, p, k => if 2 * p ≤ n then leadingBit fuel n (2 * p) (k + 1) else (p, k)

/-- The quotient `n / d0`, times `2^e0`, rounded to a 53-bit significand, ties to
even, for `2^52 ≤ n / d0 < 2^54`: the pair `(mantissa, exponent)`. The quotient
is brought into `[2^52, 2^53)`, then rounded to an integer; a significand that
rounds up to `2^53` is renormalised. -/
def roundScaled (n d0 : Nat) (e0 : Int) : Nat × Int :=
  let d := if 2 ^ 53 * d0 ≤ n then 2 * d0 else d0
  let e := if 2 ^ 53 * d0 ≤ n then e0 + 1 else e0
  let m0 := n / d
  let rem := n % d
  let m := if 2 * rem < d then m0 else if d < 2 * rem then m0 + 1
    else if m0 % 2 = 0 then m0 else m0 + 1
  if m = 2 ^ 53 then (2 ^ 52, e + 1) else (m, e)

/-- The quotient `a / b` of two positive integers rounded to a 53-bit significand,
ties to even. With `2^la` and `2^lb` the leading bits of `a` and `b`, the
quotient is `(a * 2^53 * 2^lb) / (b * 2^la)` times `2^(la - lb - 53)`. The
exponent is unbounded, which is exact for operands below `2^53` (their quotients
are normal numbers). -/
def roundQuotient (a b : Nat) : Nat × Int :=
  let A := leadingBit a a 1 0
  let B := leadingBit b b 1 0
  roundScaled (a * (2 ^ 53 * B.1)) (b * A.1) ((A.2 : Int) - (B.2 : Int) - 53)

/-- The JavaScript division `a / b` of two non-negative integers. The rounding is
a function of the exact quotient, so it is computed on the quotient in lowest
terms. -/
def jsDivide (a b : Nat) : JsQuotient :=
  if b = 0 then (if a = 0 then .nan else .infinity)
  else if a = 0 then .zero
  else
    let r := roundQuotient (a / Nat.gcd a b) (b / Nat.gcd a b)
    .finite r.1 r.2

/-- The comparison `x !== y` of two numbers: `NaN` differs from everything. -/
def strictNotEqual (x y : JsQuotient) : Bool :=
  x = .nan || y = .nan || x ≠ y

/-- The tests of lines 236-246: whether a later layer of size `width x height` is
found not to match the base size `widthBase x heightBase`. -/
def dimensionsMismatch (widthBase heightBase width height : Nat) : Bool :=
  if widthBase ≥ heightBase then
    strictNotEqual (jsDivide widthBase heightBase) (jsDivide width height)
  else
    strictNotEqual (jsDivide heightBase widthBase) (jsDivide height width)

/-- The rational number a pair `(mantissa, exponent)` denotes. -/
def quotientValue (r : Nat × Int) : ℚ := (r.1 : ℚ) * (2 : ℚ) ^ r.2

/-! ## `src/index.js`: the `/generate` handler -/

/-- The function `path.basename` on a POSIX path: trailing separators are dropped,
then what follows the last separator is kept. -/
def basename (p : Str) : Str :=
  ((p.reverse.dropWhile (fun c => c == '/')).takeWhile (fun c => c != '/')).reverse

/-- One entry `{ trait_type, value }` of an attribute list (line 253); a field
that the destructuring of line 224 leaves `undefined` is `none`. -/
structure Attribute where
  trait_type : Option Str
  value : Option Str
deriving DecidableEq, Repr

/-- The validated request body (lines 163-173). The count is the number of passes
of the loops `for (let i = 0; i < count; i++)`. -/
structure GenerateRequest where
  gatewayPinata : Str
  collectionName : Str
  collectionDescription : Option Str
  imagesFolderPath : Str
  author : Option Str
  external_url : Option Str
  youtube_url : Option Str
  animation_url : Option Str
  count : Nat

/-- The two directories the handler uploads. -/
inductive UploadDir where
  | compressedImages : UploadDir
  | metadata : UploadDir
deriving DecidableEq, Repr

/-- Everything the handler reads from outside: directory listings, the draws
`Math.floor(Math.random() * totalWeight)` (the draw for segment position `k` of
artifact `i`, given the total weight), the width and height `loadImage` decodes
(or its error), the byte size of artifact `i` encoded at a quality, and the
answer of the pinning service for a directory (the hash, or an error message).
Creating directories and writing files are taken to succeed. -/
structure World where
  readdir : Str → Except Str (List Str)
  random : Nat → Nat → Nat → Nat
  loadImage : Str → Except Str (Nat × Nat)
  encodedSize : Nat → Nat → Nat
  pin : UploadDir → Except Str Str

/-- One metadata record (lines 280-300); an optional field is present when the
request carries it non-empty, and `attributes` is `attributes[i]`. -/
structure Metadata where
  name : Str
  image : Str
  attributes : Option (List Attribute)
  description : Option Str
  external_url : Option Str
  animation_url : Option Str
  youtube_url : Option Str
  author : Option Str
deriving DecidableEq, Repr

/-- How the handler ends: a JSON response with a status and the string fields of
its body, or an exception that leaves the handler, which `asyncHandler` passes to
`next(err)`. -/
inductive HandlerResult where
  | response (status : Nat) (body : List (Str × Str)) : HandlerResult
  | passedToNext (message : Str) : HandlerResult
deriving DecidableEq, Repr

/-- A run of the handler: how it ends, the directories it sent to the pinning
service, in order, and the metadata records it wrote, `0.json` first. -/
structure Run where
  result : HandlerResult
  uploads : List UploadDir
  metadata : List Metadata
deriving DecidableEq, Repr

/-- The attribute pushed for a drawn file (lines 222-224 and 253): the first two
fields of `path.basename(file).split('-')`. -/
def layerAttribute (file : Str) : Attribute :=
  { trait_type := (split '-' (basename file)).get? 0
    value := (split '-' (basename file)).get? 1 }

/-- The inner loop `for (const segment of segments)` of lines 218-254 for artifact
`i`, from segment position `k` on, with the base size and the attributes pushed so
far. On a mismatch the branch of lines 238-239 (and 243-244) first evaluates
`outputDir`, which inside the `try` block is the `const` declared at line 310 and
not yet initialised: a `ReferenceError` is thrown before the 400 response, whose
message names the undeclared `imageName`, is built. -/
def drawLayers (world : World) (i : Nat) :
    List Segment → Nat → Nat → Nat → List Attribute → Except Str (List Attribute)
  | [], _, _, _, imageAttributes => .ok imageAttributes
  | segment :: rest, k, widthBase, heightBase, imageAttributes =>
    match getRandomElement segment.images (world.random i k (totalWeight segment.images)) with
    | none => .error "Cannot read properties of undefined (reading 'file')".toList
    | some randomElement =>
      match world.loadImage randomElement.file with
      | .error e => .error e
      | .ok (width, height) =>
        if widthBase = 0 ∧ heightBase = 0 then
          drawLayers world i rest (k + 1) width height (imageAttributes ++ [layerAttribute randomElement.file])
        else if dimensionsMismatch widthBase heightBase width height then
          .error "Cannot access 'outputDir' before initialization".toList
        else
          drawLayers world i rest (k + 1) widthBase heightBase (imageAttributes ++ [layerAttribute randomElement.file])

/-- The outer loop of lines 206-270: `remaining` more artifacts from index `i` on,
`attributes` being what was pushed so far. With no segment at all `canvas` stays
`undefined` and `canvas.toBuffer` throws. -/
def generateArtifacts (world : World) (segments : List Segment) :
    Nat → Nat → List (List Attribute) → Except Str (List (List Attribute))
  | 0, _, attributes => .ok attributes
  | remaining + 1, i, attributes =>
    match drawLayers world i segments 0 0 0 [] with
    | .error e => .error e
    | .ok imageAttributes =>
      if segments.isEmpty then
        .error "Cannot read properties of undefined (reading 'toBuffer')".toList
      else
        match compressImage (world.encodedSize i) 100 with
        | .error e => .error e
        | .ok _ => generateArtifacts world segments remaining (i + 1)
            (attributes ++ [imageAttributes])

/-- An optional field of the metadata: kept when defined and non-empty. -/
def optionalField (field : Option Str) : Option Str :=
  match field with
  | some s => if s.length > 0 then some s else none
  | none => none

/-- The metadata record of index `i` (lines 280-300). -/
def metadataRecord (req : GenerateRequest) (gatewayPinata hashesImg : Str)
    (attributes : List (List Attribute)) (i : Nat) : Metadata :=
  { name := req.collectionName ++ " #".toList ++ natToStr i
    image := gatewayPinata ++ "/ipfs/".toList ++ hashesImg ++ "/".toList ++ natToStr i
      ++ ".png".toList
    attributes := attributes.get? i
    description := optionalField req.collectionDescription
    external_url := optionalField req.external_url
    animation_url := optionalField req.animation_url
    youtube_url := optionalField req.youtube_url
    author := optionalField req.author }

/-- The answer of the `catch` of lines 320-329 to an error that is no `ZodError`. -/
def internalServerError (message : Str) : HandlerResult :=
  .response 500 [("error".toList, "Internal Server Error".toList), ("details".toList, message)]

/-- The function `uploadFilesToIPFS` (`src/pinata.js`): the hash, or the error
rethrown with its prefix. -/
def uploadFilesToIPFS (world : World) (dir : UploadDir) : Except Str Str :=
  match world.pin dir with
  | .ok hash => .ok hash
  | .error e => .error ("Failed to upload files to IPFS: ".toList ++ e)

/-- The `try` block of the handler (lines 189-319) and its `catch`, for the
gateway string `gatewayPinata`. The catalog is read under `images/` followed by
the request's folder, the path `path.join(__dirname, 'images', imagesFolderPath)`
relative to `__dirname`. -/
def generateTry (world : World) (req : GenerateRequest) (gatewayPinata : Str) : Run :=
  match getSegmentImages world.readdir ("images/".toList ++ req.imagesFolderPath) with
  | .error e => { result := internalServerError e, uploads := [], metadata := [] }
  | .ok segments =>
    match generateArtifacts world segments req.count 0 [] with
    | .error e => { result := internalServerError e, uploads := [], metadata := [] }
    | .ok attributes =>
      match uploadFilesToIPFS world .compressedImages with
      | .error e =>
        { result := internalServerError e, uploads := [.compressedImages], metadata := [] }
      | .ok hashesImg =>
        let records := (List.range req.count).map
          (metadataRecord req gatewayPinata hashesImg attributes)
        match uploadFilesToIPFS world .metadata with
        | .error e =>
          { result := internalServerError e, uploads := [.compressedImages, .metadata],
            metadata := records }
        | .ok metadataDirHashes =>
          { result := .response 200
              [("message".toList, "Images and metadata generated and uploaded to IPFS!".toList),
               ("metadataDirUrl".toList, gatewayPinata ++ "/ipfs/".toList ++ metadataDirHashes)],
            uploads := [.compressedImages, .metadata], metadata := records }

/-- The `/generate` handler from line 163 on, for a validated request body. The
names bound at lines 163-173 are `const`: each of the two assignments of lines
176 and 180 throws a `TypeError` when its branch is taken, outside the `try`
block. -/
def generateHandler (world : World) (req : GenerateRequest) : Run :=
  if "/".toList.isSuffixOf req.gatewayPinata then
    { result := .passedToNext "Assignment to constant variable.".toList, uploads := [],
      metadata := [] }
  else if "/ipfs/".toList.isSuffixOf req.gatewayPinata then
    { result := .passedToNext "Assignment to constant variable.".toList, uploads := [],
      metadata := [] }
  else generateTry world req req.gatewayPinata

/-! ## Worlds for the scenario of the specification -/

/-- The request of the end-to-end scenario: three artifacts from the catalog `c`. -/
def scenarioRequest : GenerateRequest :=
  { gatewayPinata := "https://gw.example".toList
    collectionName := "Hats".toList
    collectionDescription := none
    imagesFolderPath := "c".toList
    author := none
    external_url := none
    youtube_url := none
    animation_url := none
    count := 3 }

/-- A world for the scenario: all images 512 x 512, every artifact encoding to
4 MB at any quality, both uploads answered. -/
def scenarioWorld : World :=
  { readdir := readdirOf scenarioCatalog
    random := fun i k total => (37 * i + 11 * k + 60) % total
    loadImage := fun _ => .ok (512, 512)
    encodedSize := fun _ _ => 4 * 1024 * 1024
    pin := fun dir =>
      match dir with
      | .compressedImages => .ok "QmImages".toList
      | .metadata => .ok "QmMeta".toList }

/-- The world of the scenario with a hat of another shape: the images of segment
`1` decode to 512 x 256. -/
def mismatchWorld : World :=
  { scenarioWorld with
    loadImage := fun file =>
      if "images/c/1/".toList.isPrefixOf file then .ok (512, 256) else .ok (512, 512) }

/-! ## Concrete inputs -/

/-- The pool of the specification's selector test: weights 10, 20 and 70. -/
def selectorPool : List Image :=
  [⟨"a".toList, 10⟩, ⟨"b".toList, 20⟩, ⟨"c".toList, 70⟩]

/-- The segments `getSegmentImages` returns on the catalog of the scenario. -/
def scenarioSegments : List Segment :=
  [⟨[⟨"images/c/0/bg-red-50-1.png".toList, 50⟩, ⟨"images/c/0/bg-blue-50-2.png".toList, 50⟩]⟩,
   ⟨[⟨"images/c/1/hat-none-100-1.png".toList, 100⟩]⟩]

/-- The request of the scenario with a gateway written with a trailing slash. -/
def slashRequest : GenerateRequest :=
  { scenarioRequest with gatewayPinata := "https://gw.example/".toList }

/-- The request of the scenario with a gateway written with a trailing `/ipfs/`. -/
def ipfsRequest : GenerateRequest :=
  { scenarioRequest with gatewayPinata := "https://gw.example/ipfs/".toList }

/-- The sizes of an image that `loadImage` has decoded: positive sides and fewer
than `2^52` pixels in all. A decoded image is held in memory pixel by pixel (four
bytes each in the cairo surfaces of node-canvas, whose sides are limited to
32767), so every image the loop can draw is far inside this range. -/
def DecodedSize (width height : Nat) : Prop :=
  0 < width ∧ 0 < height ∧ width * height < 2 ^ 52

instance (width height : Nat) : Decidable (DecodedSize width height) := by
  unfold DecodedSize; exact inferInstance

/-- The world of the scenario on the catalog of eleven segments. -/
def elevenWorld : World :=
  { scenarioWorld with readdir := readdirOf elevenCatalog }

/-- A request for one artifact from the catalog of eleven segments. -/
def elevenRequest : GenerateRequest :=
  { scenarioRequest with imagesFolderPath := "e".toList, count := 1 }


/-! ## Lemmas on the weighted selector -/

theorem foldl_weight_shift (elements : List Image) (s : Nat) :
    elements.foldl (fun sum el => sum + el.weight) s = s + totalWeight elements := by
  induction elements generalizing s with
  | nil => simp [totalWeight]
  | cons el rest ih =>
    simp only [totalWeight, List.foldl_cons, Nat.zero_add]
    rw [ih, ih el.weight]
    omega

theorem totalWeight_cons (el : Image) (rest : List Image) :
    totalWeight (el :: rest) = el.weight + totalWeight rest := by
  simp only [totalWeight, List.foldl_cons, Nat.zero_add]
  exact foldl_weight_shift rest el.weight

theorem weightBefore_zero (elements : List Image) : weightBefore elements 0 = 0 := by
  simp [weightBefore, totalWeight]

theorem weightBefore_succ_cons (el : Image) (rest : List Image) (i : Nat) :
    weightBefore (el :: rest) (i + 1) = el.weight + weightBefore rest i := by
  simp [weightBefore, totalWeight_cons]

/-- The loop returns position `pos + i` exactly on the draws that fall in the
window of weight of the element at offset `i`. -/
theorem getRandomPositionLoop_eq_some (random : Nat) (elements : List Image)
    (sum pos i : Nat) (hs : sum ≤ random) :
    getRandomPositionLoop random elements sum pos = some (pos + i) ↔
      ∃ h : i < elements.length,
        sum + weightBefore elements i ≤ random ∧
        random < sum + weightBefore elements i + (elements.get ⟨i, h⟩).weight := by
  induction elements generalizing sum pos i with
  | nil => simp [getRandomPositionLoop]
  | cons el rest ih =>
    unfold getRandomPositionLoop
    by_cases hlt : random < sum + el.weight
    · rw [if_pos hlt]
      cases i with
      | zero =>
        simp [weightBefore_zero, hs, hlt]
      | succ j =>
        constructor
        · intro h
          simp at h
        · rintro ⟨_, h1, _⟩
          rw [weightBefore_succ_cons] at h1
          omega
    · rw [if_neg hlt]
      cases i with
      | zero =>
        constructor
        · intro h
          exfalso
          have key : ∀ (l : List Image) (s p : Nat),
              getRandomPositionLoop random l s p = some pos → p ≤ pos := by
            intro l
            induction l with
            | nil => intro s p h; simp [getRandomPositionLoop] at h
            | cons a t iht =>
              intro s p h
              unfold getRandomPositionLoop at h
              split at h
              · simp at h; omega
              · have := iht _ _ h; omega
          have := key _ _ _ h
          omega
        · rintro ⟨_, _, h2⟩
          simp [weightBefore_zero] at h2
          omega
      | succ j =>
        have hpos : pos + (j + 1) = (pos + 1) + j := by omega
        rw [hpos, ih (sum + el.weight) (pos + 1) j (by omega)]
        simp only [List.length_cons, Nat.add_lt_add_iff_right, weightBefore_succ_cons,
          List.get_cons_succ]
        constructor
        · rintro ⟨h, h1, h2⟩
          exact ⟨h, by omega, by omega⟩
        · rintro ⟨h, h1, h2⟩
          exact ⟨h, by omega, by omega⟩

/-- The element returned is the one at the position returned. -/
theorem getRandomElementLoop_eq (random : Nat) (elements : List Image) (sum pos : Nat) :
    getRandomElementLoop random elements sum =
      (getRandomPositionLoop random elements sum pos).bind
        (fun p => elements.get? (p - pos)) := by
  induction elements generalizing sum pos with
  | nil => simp [getRandomElementLoop, getRandomPositionLoop]
  | cons el rest ih =>
    unfold getRandomElementLoop getRandomPositionLoop
    by_cases hlt : random < sum + el.weight
    · simp [hlt]
    · simp only [hlt, if_false]
      rw [ih (sum + el.weight) (pos + 1)]
      cases hp : getRandomPositionLoop random rest (sum + el.weight) (pos + 1) with
      | none => simp
      | some p =>
        have key : ∀ (l : List Image) (s q : Nat),
            getRandomPositionLoop random l s q = some p → q ≤ p := by
          intro l
          induction l with
          | nil => intro s q h; simp [getRandomPositionLoop] at h
          | cons a t iht =>
            intro s q h
            unfold getRandomPositionLoop at h
            split at h
            · simp at h; omega
            · have := iht _ _ h; omega
        have hle := key _ _ _ hp
        have : p - pos = (p - (pos + 1)) + 1 := by omega
        simp [this]

theorem weightBefore_add_le (elements : List Image) (i : Nat) (h : i < elements.length) :
    weightBefore elements i + (elements.get ⟨i, h⟩).weight ≤ totalWeight elements := by
  induction elements generalizing i with
  | nil => simp at h
  | cons el rest ih =>
    cases i with
    | zero => simp [weightBefore_zero, totalWeight_cons]
    | succ j =>
      rw [weightBefore_succ_cons, totalWeight_cons]
      have := ih j (by simpa using h)
      simp only [List.get_cons_succ]
      omega

/-- C1. Weighted selection is exact: for every pool and every position `i` of it,
the number of draws `r` in `[0, totalWeight)` on which `getRandomElement` returns
the element at position `i` equals that element's weight (so a uniform draw
selects it with probability `weight / totalWeight`), and on every such draw the
function returns an element of the pool, never `undefined`. The statement needs
neither the pool to be non-empty nor the weights to be at least 1; both are
special cases. -/
theorem getRandomElement_draw_count (elements : List Image) :
    (∀ (i : Nat) (h : i < elements.length),
        ((Finset.range (totalWeight elements)).filter
          (fun r => getRandomPosition elements r = some i)).card
          = (elements.get ⟨i, h⟩).weight) ∧
    (∀ r, r < totalWeight elements →
        ∃ (i : Nat) (h : i < elements.length),
          getRandomPosition elements r = some i ∧
          getRandomElement elements r = some (elements.get ⟨i, h⟩)) ∧
    (∀ r, getRandomElement elements r =
        (getRandomPosition elements r).bind (fun p => elements.get? p)) := by
  have hpos : ∀ r i, getRandomPosition elements r = some i ↔
      ∃ h : i < elements.length,
        weightBefore elements i ≤ r ∧
        r < weightBefore elements i + (elements.get ⟨i, h⟩).weight := by
    intro r i
    have := getRandomPositionLoop_eq_some r elements 0 0 i (Nat.zero_le _)
    simpa [getRandomPosition] using this
  have hel : ∀ r, getRandomElement elements r =
      (getRandomPosition elements r).bind (fun p => elements.get? p) := by
    intro r
    have := getRandomElementLoop_eq r elements 0 0
    simpa [getRandomElement, getRandomPosition] using this
  refine ⟨?_, ?_, hel⟩
  · intro i h
    have hle := weightBefore_add_le elements i h
    have hset : (Finset.range (totalWeight elements)).filter
        (fun r => getRandomPosition elements r = some i)
        = Finset.Ico (weightBefore elements i)
            (weightBefore elements i + (elements.get ⟨i, h⟩).weight) := by
      ext r
      simp only [Finset.mem_filter, Finset.mem_range, Finset.mem_Ico, hpos]
      constructor
      · rintro ⟨_, _, h1, h2⟩
        exact ⟨h1, h2⟩
      · rintro ⟨h1, h2⟩
        exact ⟨by omega, h, h1, h2⟩
    rw [hset]
    simp
  · intro r hr
    -- some window contains the draw
    have hex : ∃ i, ∃ h : i < elements.length,
        weightBefore elements i ≤ r ∧
        r < weightBefore elements i + (elements.get ⟨i, h⟩).weight := by
      clear hpos hel
      induction elements generalizing r with
      | nil => simp [totalWeight] at hr
      | cons el rest ih =>
        by_cases hlt : r < el.weight
        · exact ⟨0, by simp, by simp [weightBefore_zero], by simpa [weightBefore_zero] using hlt⟩
        · rw [totalWeight_cons] at hr
          obtain ⟨j, hj, h1, h2⟩ := ih (r - el.weight) (by omega)
          refine ⟨j + 1, by simpa using hj, ?_, ?_⟩
          · rw [weightBefore_succ_cons]; omega
          · rw [weightBefore_succ_cons]
            simp only [List.get_cons_succ]
            omega
    obtain ⟨i, h, h1, h2⟩ := hex
    have hp : getRandomPosition elements r = some i := (hpos r i).2 ⟨h, h1, h2⟩
    refine ⟨i, h, hp, ?_⟩
    rw [hel r, hp]
    simp [List.get?_eq_get h]
/-! ## Lemmas on digits and `parseInt` -/

theorem isDigit_cases (c : Char) (h : c.isDigit = true) :
    c ∈ ['0', '1', '2', '3', '4', '5', '6', '7', '8', '9'] := by
  have h1 : 48 ≤ c.toNat ∧ c.toNat ≤ 57 := by
    simp only [Char.isDigit, Bool.and_eq_true, decide_eq_true_eq, ge_iff_le] at h
    exact ⟨h.1, h.2⟩
  have h2 : c = Char.ofNat c.toNat := (Char.ofNat_toNat c).symm
  obtain ⟨h3, h4⟩ := h1
  generalize c.toNat = n at h2 h3 h4
  subst h2
  interval_cases n <;> decide

/-- What the program needs to know of a digit character. -/
theorem isDigit_facts (c : Char) (h : c.isDigit = true) :
    isStrWhiteSpace c = false ∧ c ≠ '-' ∧ c ≠ '+' ∧ c ≠ 'x' ∧ c ≠ 'X' ∧ c ≠ '.' ∧
      digitValue c = some (c.toNat - 48) ∧ c.toNat - 48 < 10 ∧ isTokenChar c = true := by
  have hc := isDigit_cases c h
  simp only [List.mem_cons, List.mem_singleton, List.not_mem_nil, or_false] at hc
  rcases hc with rfl | rfl | rfl | rfl | rfl | rfl | rfl | rfl | rfl | rfl <;> decide

theorem digitsRegexTest_iff (s : Str) : digitsRegexTest s = true ↔ IsDigitString s := by
  unfold digitsRegexTest IsDigitString
  cases s with
  | nil => simp
  | cons c rest => simp [List.all_eq_true]

theorem radixDigits_ten (s : Str) (h : ∀ c ∈ s, c.isDigit = true) :
    radixDigits 10 s = s.map (fun c => c.toNat - 48) := by
  induction s with
  | nil => rfl
  | cons c rest ih =>
    have hc := isDigit_facts c (h c (List.mem_cons_self _ _))
    have hd := hc.2.2.2.2.2.2.1
    have hlt := hc.2.2.2.2.2.2.2.1
    simp only [radixDigits, hd, hlt, if_true, List.map_cons]
    rw [ih (fun d hd => h d (List.mem_cons_of_mem _ hd))]

theorem foldl_digits (s : Str) (a : Nat) :
    (s.map (fun c => c.toNat - 48)).foldl (fun acc d => acc * 10 + d) a
      = s.foldl (fun acc c => 10 * acc + (c.toNat - 48)) a := by
  induction s generalizing a with
  | nil => rfl
  | cons c rest ih =>
    simp only [List.map_cons, List.foldl_cons]
    rw [ih, Nat.mul_comm]

/-- On a string of digits `parseInt`, with radix absent or 10, is the decimal
value. -/
theorem parseInt_digits (s : Str) (h : IsDigitString s) (radix : Nat)
    (hr : radix = 0 ∨ radix = 10) : parseInt s radix = some (decimalValue s : Int) := by
  obtain ⟨hne, hall⟩ := h
  cases s with
  | nil => exact absurd rfl hne
  | cons c rest =>
    have hc := isDigit_facts c (hall c (List.mem_cons_self _ _))
    have hdrop : (c :: rest).dropWhile isStrWhiteSpace = c :: rest := by
      simp [List.dropWhile, hc.1]
    have hsign : parseSign (c :: rest) = (1, c :: rest) := by
      unfold parseSign
      split
      · rename_i heq; injection heq with h1 _; exact absurd h1 hc.2.1
      · rename_i heq; injection heq with h1 _; exact absurd h1 hc.2.2.1
      · rfl
    have hpre : ∀ b R, parsePrefix b R (c :: rest) = (R, c :: rest) := by
      intro b R
      unfold parsePrefix
      split
      · rename_i heq
        injection heq with h1 h2
        subst h2
        have := isDigit_facts 'x' (hall 'x' (by simp))
        exact absurd rfl this.2.2.2.1
      · rename_i heq
        injection heq with h1 h2
        subst h2
        have := isDigit_facts 'X' (hall 'X' (by simp))
        exact absurd rfl this.2.2.2.2.1
      · rfl
    have hR : (if radix = 0 then 10 else radix) = 10 := by
      rcases hr with rfl | rfl <;> simp
    have hguard : ¬ (radix ≠ 0 ∧ (radix < 2 ∨ 36 < radix)) := by
      rcases hr with rfl | rfl <;> simp
    unfold parseInt
    simp only [hdrop, hsign, hguard, if_false, hpre, hR]
    rw [radixDigits_ten _ hall]
    simp only [List.map_cons, reduceCtorEq, if_false, one_mul]
    have := foldl_digits (c :: rest) 0
    simp only [List.map_cons] at this
    rw [this]
    rfl

theorem folderNumber_of_digits (folder : Str) (h : IsDigitString folder) :
    folderNumber folder = .ok (decimalValue folder : Int) := by
  unfold folderNumber
  rw [parseInt_digits folder h 0 (Or.inl rfl)]
  simp [(digitsRegexTest_iff folder).2 h]

theorem folderNumber_error_iff (folder : Str) :
    (∃ e, folderNumber folder = .error e) ↔ ¬ IsDigitString folder := by
  constructor
  · rintro ⟨e, he⟩ h
    rw [folderNumber_of_digits folder h] at he
    cases he
  · intro h
    have hreg : digitsRegexTest folder = false := by
      cases hd : digitsRegexTest folder with
      | false => rfl
      | true => exact absurd ((digitsRegexTest_iff folder).1 hd) h
    unfold folderNumber
    cases parseInt folder 0 with
    | none => exact ⟨_, rfl⟩
    | some num => simp [hreg]

/-! ## Lemmas on `mapOrThrow` -/

theorem mapOrThrow_ok_of_forall {α β : Type} (f : α → Except Str β) (g : α → β) (l : List α)
    (h : ∀ a ∈ l, f a = .ok (g a)) : mapOrThrow f l = .ok (l.map g) := by
  induction l with
  | nil => rfl
  | cons a rest ih =>
    simp only [mapOrThrow, h a (List.mem_cons_self _ _),
      ih (fun b hb => h b (List.mem_cons_of_mem _ hb)), List.map_cons]

theorem mapOrThrow_error_iff {α β : Type} (f : α → Except Str β) (l : List α) :
    (∃ e, mapOrThrow f l = .error e) ↔ ∃ a ∈ l, ∃ e, f a = .error e := by
  induction l with
  | nil => simp [mapOrThrow]
  | cons a rest ih =>
    unfold mapOrThrow
    cases hfa : f a with
    | error e =>
      simp only [List.mem_cons, exists_eq_or_imp]
      constructor
      · intro _; exact Or.inl ⟨e, hfa⟩
      · intro _; exact ⟨e, rfl⟩
    | ok b =>
      cases hrest : mapOrThrow f rest with
      | error e =>
        have := ih.1 (hrest ▸ ⟨e, rfl⟩)
        simp only [List.mem_cons, exists_eq_or_imp]
        constructor
        · intro _; exact Or.inr this
        · intro _; exact ⟨e, rfl⟩
      | ok bs =>
        simp only [List.mem_cons, exists_eq_or_imp, hfa, reduceCtorEq, exists_false, false_or]
        constructor
        · rintro ⟨e, he⟩
        · intro h2
          rw [hrest] at ih
          obtain ⟨e, he⟩ := ih.2 h2
          cases he

/-- When the map succeeds, its results are those of the callback, in order. -/
theorem mapOrThrow_ok_forall₂ {α β : Type} (f : α → Except Str β) (l : List α) (bs : List β)
    (h : mapOrThrow f l = .ok bs) : List.Forall₂ (fun a b => f a = .ok b) l bs := by
  induction l generalizing bs with
  | nil =>
    simp only [mapOrThrow, Except.ok.injEq] at h
    subst h
    exact List.Forall₂.nil
  | cons a rest ih =>
    unfold mapOrThrow at h
    cases hfa : f a with
    | error e => rw [hfa] at h; cases h
    | ok b =>
      rw [hfa] at h
      cases hrest : mapOrThrow f rest with
      | error e => rw [hrest] at h; cases h
      | ok bs2 =>
        rw [hrest] at h
        simp only [Except.ok.injEq] at h
        subst h
        exact List.Forall₂.cons hfa (ih bs2 hrest)
/-! ## Lemmas on the layout stage -/

theorem checkNumbering_ok_iff (l : List Int) (i : Nat) :
    checkNumbering l i = .ok () ↔ l = (List.range' i l.length).map (fun k : Nat => (k : Int)) := by
  induction l generalizing i with
  | nil => simp [checkNumbering]
  | cons n rest ih =>
    unfold checkNumbering
    by_cases hn : n = (i : Int)
    · subst hn
      simp only [ne_eq, not_true_eq_false, if_false, ih (i + 1), List.length_cons,
        List.range'_succ, List.map_cons, List.cons.injEq, true_and]
    · simp only [ne_eq, hn, not_false_eq_true, if_true, reduceCtorEq, List.length_cons,
        List.range'_succ, List.map_cons, List.cons.injEq, false_and]

theorem checkNumbering_cases (l : List Int) (i : Nat) :
    checkNumbering l i = .ok () ∨ ∃ e, checkNumbering l i = .error e := by
  cases h : checkNumbering l i with
  | ok u => exact Or.inl rfl
  | error e => exact Or.inr ⟨e, rfl⟩

/-- Sorting commutes with reading naturals as integers. -/
theorem insertionSort_cast (l : List Nat) :
    (l.map (fun k : Nat => (k : Int))).insertionSort (· ≤ ·)
      = (l.insertionSort (· ≤ ·)).map (fun k : Nat => (k : Int)) := by
  apply List.eq_of_perm_of_sorted (r := (· ≤ ·))
  · exact (List.perm_insertionSort _ _).trans
      ((List.perm_insertionSort _ l).symm.map _)
  · exact List.sorted_insertionSort _ _
  · have hs := List.sorted_insertionSort (· ≤ ·) l
    exact List.pairwise_map.2 (hs.imp (fun h => by exact_mod_cast h))

theorem map_cast_injective (a b : List Nat)
    (h : a.map (fun k : Nat => (k : Int)) = b.map (fun k : Nat => (k : Int))) : a = b := by
  have hinj : Function.Injective (fun k : Nat => (k : Int)) := fun x y hxy => by
    simpa using hxy
  exact List.map_injective_iff.2 hinj h

/-- The layout stage succeeds exactly on the listings of 1 to 100 digit strings
whose numbers, sorted, are `0, 1, ..., N-1`. -/
theorem layoutStage_ok_iff (names : List Str) :
    (∃ nums, layoutStage names = .ok nums) ↔
      (∀ n ∈ names, IsDigitString n) ∧ 1 ≤ names.length ∧ names.length ≤ 100 ∧
        (names.map decimalValue).insertionSort (· ≤ ·) = List.range names.length := by
  by_cases hd : ∀ n ∈ names, IsDigitString n
  · have hmap : mapOrThrow folderNumber names
        = .ok (names.map (fun n : Str => (decimalValue n : Int))) :=
      mapOrThrow_ok_of_forall _ _ _ (fun a ha => folderNumber_of_digits a (hd a ha))
    have hsort : (names.map (fun n : Str => (decimalValue n : Int))).insertionSort (· ≤ ·)
        = ((names.map decimalValue).insertionSort (· ≤ ·)).map (fun k : Nat => (k : Int)) := by
      rw [← insertionSort_cast, List.map_map]
      rfl
    have hlen : ((names.map (fun n : Str => (decimalValue n : Int))).insertionSort (· ≤ ·)).length
        = names.length := by
      rw [List.length_insertionSort, List.length_map]
    unfold layoutStage
    simp only [hmap, hlen]
    by_cases hN : names.length < 1 ∨ names.length > 100
    · simp only [hN, if_true, reduceCtorEq, exists_false, false_iff]
      intro h
      omega
    · simp only [hN, if_false]
      have hN2 : 1 ≤ names.length ∧ names.length ≤ 100 := by omega
      rcases checkNumbering_cases
        ((names.map (fun n : Str => (decimalValue n : Int))).insertionSort (· ≤ ·)) 0 with hok | ⟨e, he⟩
      · rw [hok]
        have h2 := (checkNumbering_ok_iff _ 0).1 hok
        rw [hlen, hsort] at h2
        have h3 := map_cast_injective _ _ h2
        refine ⟨fun _ => ⟨hd, hN2.1, hN2.2, ?_⟩, fun _ => ⟨_, rfl⟩⟩
        rw [h3, List.range_eq_range']
      · rw [he]
        simp only [reduceCtorEq, exists_false, false_iff]
        rintro ⟨_, _, _, h4⟩
        have h5 : checkNumbering
            ((names.map (fun n : Str => (decimalValue n : Int))).insertionSort (· ≤ ·)) 0 = .ok () := by
          rw [checkNumbering_ok_iff, hlen, hsort, h4, List.range_eq_range']
        rw [h5] at he
        cases he
  · have herr : ∃ e, mapOrThrow folderNumber names = .error e := by
      rw [mapOrThrow_error_iff]
      push_neg at hd
      obtain ⟨n, hn, hnd⟩ := hd
      exact ⟨n, hn, (folderNumber_error_iff n).2 hnd⟩
    obtain ⟨e, he⟩ := herr
    unfold layoutStage
    simp only [he, reduceCtorEq, exists_false, false_iff]
    intro h
    exact hd h.1

theorem except_ok_or_error {α : Type} (x : Except Str α) :
    (∃ a, x = .ok a) ∨ ∃ e, x = .error e := by
  cases x with
  | ok a => exact Or.inl ⟨a, rfl⟩
  | error e => exact Or.inr ⟨e, rfl⟩

theorem except_error_iff_not_ok {α : Type} (x : Except Str α) :
    (∃ e, x = .error e) ↔ ¬ ∃ a, x = .ok a := by
  cases x with
  | ok a => simp
  | error e => simp

/-- C2. The layout stage of `getSegmentImages` raises an error if and only if some
sub-folder name is not a string of base-10 digits, or the number `N` of
sub-folders is outside `1..100`, or the folder numbers sorted ascending differ
from `0, 1, ..., N-1`. In particular it rejects every listing in which two names
denote the same number, and every listing with a gap (a number `k` absent below
a number `m` that is present). -/
theorem layoutStage_error_iff (names : List Str) :
    ((∃ e, layoutStage names = .error e) ↔
      ((∃ n ∈ names, ¬ IsDigitString n) ∨ names.length < 1 ∨ 100 < names.length ∨
        (names.map decimalValue).insertionSort (· ≤ ·) ≠ List.range names.length)) ∧
    (∀ (i j : Nat) (hi : i < names.length) (hj : j < names.length), i ≠ j →
        decimalValue (names.get ⟨i, hi⟩) = decimalValue (names.get ⟨j, hj⟩) →
        ∃ e, layoutStage names = .error e) ∧
    (∀ m k : Nat, m ∈ names.map decimalValue → k < m → k ∉ names.map decimalValue →
        ∃ e, layoutStage names = .error e) := by
  have hiff : (∃ e, layoutStage names = .error e) ↔
      ((∃ n ∈ names, ¬ IsDigitString n) ∨ names.length < 1 ∨ 100 < names.length ∨
        (names.map decimalValue).insertionSort (· ≤ ·) ≠ List.range names.length) := by
    rw [except_error_iff_not_ok, layoutStage_ok_iff]
    constructor
    · intro h
      by_contra hcon
      push_neg at hcon
      exact h ⟨hcon.1, by omega, by omega, hcon.2.2.2⟩
    · rintro h ⟨h1, h2, h3, h4⟩
      rcases h with ⟨n, hn, hnd⟩ | h | h | h
      · exact hnd (h1 n hn)
      · omega
      · omega
      · exact h h4
  have hperm : (¬ ∃ e, layoutStage names = .error e) →
      (names.map decimalValue).Perm (List.range names.length) := by
    intro h
    rw [except_error_iff_not_ok, not_not, layoutStage_ok_iff] at h
    have := List.perm_insertionSort (· ≤ ·) (names.map decimalValue)
    rw [h.2.2.2] at this
    exact this.symm
  refine ⟨hiff, ?_, ?_⟩
  · intro i j hi hj hij heq
    by_contra hcon
    have hnd : (names.map decimalValue).Nodup :=
      (hperm hcon).nodup_iff.2 (List.nodup_range _)
    have hi2 : i < (names.map decimalValue).length := by simpa using hi
    have hj2 : j < (names.map decimalValue).length := by simpa using hj
    have := (List.Nodup.get_inj_iff hnd (i := ⟨i, hi2⟩) (j := ⟨j, hj2⟩)).1
      (by simpa using heq)
    exact hij (by simpa using this)
  · intro m k hm hk hkn
    by_contra hcon
    have hp := hperm hcon
    have hm2 : m < names.length := by simpa using (hp.mem_iff.1 hm)
    exact hkn (hp.mem_iff.2 (by simp; omega))
/-! ## Lemmas on the file-name scan -/

theorem many1_some (p : Char → Bool) (s r : Str) (h : many1 p s = some r) :
    ∃ a : Str, a ≠ [] ∧ (∀ c ∈ a, p c = true) ∧ s = a ++ r := by
  unfold many1 at h
  split at h
  · cases h
  · rename_i hne
    simp only [Option.some.injEq] at h
    refine ⟨s.takeWhile p, ?_, ?_, ?_⟩
    · intro h0
      rw [h0] at hne
      exact hne rfl
    · intro c hc
      exact List.mem_takeWhile_imp hc
    · rw [← h, List.takeWhile_append_dropWhile]

theorem literal_some (l s r : Str) (h : literal l s = some r) : s = l ++ r := by
  induction l generalizing s with
  | nil =>
    simp only [literal, Option.some.injEq] at h
    simp [h]
  | cons c ls ih =>
    cases s with
    | nil => simp [literal] at h
    | cons d rest =>
      unfold literal at h
      split at h
      · rename_i hdc
        rw [ih rest h, hdc]
        rfl
      · cases h

/-- A file name the regular expression accepts splits into the four fields of the
grammar. -/
theorem filenameRegexTest_grammar (file : Str) (h : filenameRegexTest file = true) :
    ∃ t v w o : Str, MatchesGrammar file t v w o := by
  unfold filenameRegexTest at h
  simp only [Option.bind_eq_bind, Option.some_bind, beq_iff_eq] at h
  obtain ⟨r7, h7, h8⟩ := Option.bind_eq_some.1 h
  obtain ⟨r6, h6, h7⟩ := Option.bind_eq_some.1 h7
  obtain ⟨r5, h5, h6⟩ := Option.bind_eq_some.1 h6
  obtain ⟨r4, h4, h5⟩ := Option.bind_eq_some.1 h5
  obtain ⟨r3, h3, h4⟩ := Option.bind_eq_some.1 h4
  obtain ⟨r2, h2, h3⟩ := Option.bind_eq_some.1 h3
  obtain ⟨r1, h1, h2⟩ := Option.bind_eq_some.1 h2
  obtain ⟨t, ht0, ht, e1⟩ := many1_some _ _ _ h1
  have e2 := literal_some _ _ _ h2
  obtain ⟨v, hv0, hv, e3⟩ := many1_some _ _ _ h3
  have e4 := literal_some _ _ _ h4
  obtain ⟨w, hw0, hw, e5⟩ := many1_some _ _ _ h5
  have e6 := literal_some _ _ _ h6
  obtain ⟨o, ho0, ho, e7⟩ := many1_some _ _ _ h7
  have e8 := literal_some _ _ _ h8
  refine ⟨t, v, w, o, ⟨ht0, ht⟩, ⟨hv0, hv⟩, ⟨hw0, hw⟩, ⟨ho0, ho⟩, ?_⟩
  rw [e1, e2, e3, e4, e5, e6, e7, e8]
  simp

theorem split_append_sep (sep : Char) (a r : Str) (h : ∀ c ∈ a, c ≠ sep) :
    split sep (a ++ sep :: r) = a :: split sep r := by
  induction a with
  | nil => simp [split]
  | cons c rest ih =>
    have hc : c ≠ sep := h c (List.mem_cons_self _ _)
    have ih2 := ih (fun d hd => h d (List.mem_cons_of_mem _ hd))
    show split sep (c :: (rest ++ sep :: r)) = _
    rw [split]
    simp only [hc, if_false]
    rw [ih2]

theorem isTokenChar_ne_hyphen (c : Char) (h : isTokenChar c = true) : c ≠ '-' := by
  rintro rfl
  revert h
  decide

/-- The first three fields of `file.split('-')` are the first three fields of the
grammar. -/
theorem split_grammar (file t v w o : Str) (h : MatchesGrammar file t v w o) :
    ∃ rest, split '-' file = t :: v :: w :: rest := by
  obtain ⟨ht, hv, hw, _, rfl⟩ := h
  rw [split_append_sep _ _ _ (fun c hc => isTokenChar_ne_hyphen c (ht.2 c hc)),
    split_append_sep _ _ _ (fun c hc => isTokenChar_ne_hyphen c (hv.2 c hc)),
    split_append_sep _ _ _ (fun c hc => (isDigit_facts c (hw.2 c hc)).2.1)]
  exact ⟨_, rfl⟩

/-- What a successful call of the callback of `imageFiles.map` returns. -/
theorem imageOfFile_ok (segmentPath file : Str) (img : Image)
    (h : imageOfFile segmentPath file = .ok img) :
    ∃ t v w o : Str, MatchesGrammar file t v w o ∧
      img.file = segmentPath ++ "/".toList ++ file ∧
      img.weight = decimalValue w ∧ 1 ≤ img.weight ∧ img.weight ≤ 100 := by
  unfold imageOfFile at h
  by_cases hreg : filenameRegexTest file = true
  · obtain ⟨t, v, w, o, hg⟩ := filenameRegexTest_grammar file hreg
    obtain ⟨rest, hsplit⟩ := split_grammar file t v w o hg
    have hparse := parseInt_digits w hg.2.2.1 10 (Or.inr rfl)
    simp only [hreg, Bool.not_true, Bool.false_eq_true, if_false, hsplit, List.get?_cons_succ,
      List.get?_cons_zero, Option.getD_some, hparse] at h
    split at h
    · cases h
    · rename_i hrange
      simp only [Except.ok.injEq] at h
      subst h
      refine ⟨t, v, w, o, hg, rfl, ?_, ?_, ?_⟩
      · simp
      · simp only [Int.toNat_ofNat]; omega
      · simp only [Int.toNat_ofNat]; omega
  · simp only [hreg, Bool.not_false, if_true] at h
    simp at hreg
    simp [hreg] at h

theorem nodup_of_dedup_length {α : Type} [DecidableEq α] (l : List α)
    (h : l.dedup.length = l.length) : l.Nodup := by
  have := (List.dedup_sublist l).eq_of_length h
  rw [← this]
  exact List.nodup_dedup l

theorem forall₂_mem_right {α β : Type} {R : α → β → Prop} {l : List α} {bs : List β}
    (h : List.Forall₂ R l bs) (b : β) (hb : b ∈ bs) : ∃ a ∈ l, R a b := by
  induction h with
  | nil => cases hb
  | cons hab _ ih =>
    rcases List.mem_cons.1 hb with rfl | hb2
    · exact ⟨_, List.mem_cons_self _ _, hab⟩
    · obtain ⟨a, ha, hr⟩ := ih hb2
      exact ⟨a, List.mem_cons_of_mem _ ha, hr⟩

/-- What a successful pass of the loop body over one sub-folder returns. -/
theorem segmentOfFolder_ok (readdir : Str → Except Str (List Str)) (foldersPath folder : Str)
    (seg : Segment) (h : segmentOfFolder readdir foldersPath folder = .ok seg) :
    ∃ imageFiles, readdir (foldersPath ++ "/".toList ++ folder) = .ok imageFiles ∧
      mapOrThrow (imageOfFile (foldersPath ++ "/".toList ++ folder)) imageFiles = .ok seg.images ∧
      1 ≤ seg.images.length ∧ seg.images.length ≤ 100 ∧
      (seg.images.map (fun el => el.file)).Nodup := by
  unfold segmentOfFolder at h
  simp only at h
  cases hrd : readdir (foldersPath ++ "/".toList ++ folder) with
  | error e => rw [hrd] at h; cases h
  | ok imageFiles =>
    rw [hrd] at h
    simp only at h
    cases hmap : mapOrThrow (imageOfFile (foldersPath ++ "/".toList ++ folder)) imageFiles with
    | error e => rw [hmap] at h; cases h
    | ok images =>
      rw [hmap] at h
      simp only at h
      split at h
      · cases h
      · rename_i hlen
        split at h
        · cases h
        · rename_i hdup
          have hl : 1 ≤ images.length ∧ images.length ≤ 100 := by omega
          have hn : (images.map (fun el => el.file)).Nodup :=
            nodup_of_dedup_length _ (by simpa using hdup)
          simp only [Except.ok.injEq] at h
          subst h
          exact ⟨imageFiles, rfl, hmap, hl.1, hl.2, hn⟩

theorem getSegmentImages_ok (readdir : Str → Except Str (List Str)) (foldersPath : Str)
    (segments : List Segment) (h : getSegmentImages readdir foldersPath = .ok segments) :
    ∃ segmentFolders, readdir foldersPath = .ok segmentFolders ∧
      (∃ nums, layoutStage segmentFolders = .ok nums) ∧
      mapOrThrow (segmentOfFolder readdir foldersPath) segmentFolders = .ok segments := by
  unfold getSegmentImages at h
  cases htry : getSegmentImagesTry readdir foldersPath with
  | error e => rw [htry] at h; cases h
  | ok segs =>
    rw [htry] at h
    simp only [Except.ok.injEq] at h
    subst h
    unfold getSegmentImagesTry at htry
    cases hrd : readdir foldersPath with
    | error e => rw [hrd] at htry; cases htry
    | ok segmentFolders =>
      rw [hrd] at htry
      simp only at htry
      cases hlay : layoutStage segmentFolders with
      | error e => rw [hlay] at htry; cases htry
      | ok nums =>
        rw [hlay] at htry
        exact ⟨segmentFolders, rfl, ⟨nums, hlay⟩, htry⟩

theorem totalWeight_pos_of_mem (images : List Image) (img : Image) (hmem : img ∈ images)
    (h : 1 ≤ img.weight) : 1 ≤ totalWeight images := by
  induction images with
  | nil => cases hmem
  | cons el rest ih =>
    rw [totalWeight_cons]
    rcases List.mem_cons.1 hmem with rfl | h2
    · omega
    · have := ih h2; omega

/-- Every image of a returned segment was built by the callback of
`imageFiles.map` from a file name of the grammar. -/
theorem getSegmentImages_image (readdir : Str → Except Str (List Str))
    (foldersPath : Str) (segments : List Segment)
    (h : getSegmentImages readdir foldersPath = .ok segments)
    (seg : Segment) (hseg : seg ∈ segments) (img : Image) (hmem : img ∈ seg.images) :
    ∃ dir name t v w o : Str,
      img.file = dir ++ "/".toList ++ name ∧ MatchesGrammar name t v w o ∧
      (split '-' name).get? 2 = some w ∧
      img.weight = decimalValue w ∧ 1 ≤ img.weight ∧ img.weight ≤ 100 := by
  obtain ⟨segmentFolders, _, _, hmap⟩ := getSegmentImages_ok readdir foldersPath segments h
  obtain ⟨folder, _, hfolder⟩ := forall₂_mem_right (mapOrThrow_ok_forall₂ _ _ _ hmap) seg hseg
  obtain ⟨imageFiles, _, himgs, _, _, _⟩ :=
    segmentOfFolder_ok readdir foldersPath folder seg hfolder
  obtain ⟨file, _, hfile⟩ := forall₂_mem_right (mapOrThrow_ok_forall₂ _ _ _ himgs) img hmem
  obtain ⟨t, v, w, o, hg, hpath, hw, h1, h100⟩ := imageOfFile_ok _ file img hfile
  obtain ⟨rest, hsplit⟩ := split_grammar file t v w o hg
  exact ⟨_, file, t, v, w, o, hpath, hg, by simp [hsplit], hw, h1, h100⟩

/-- C4. On every catalog on which `getSegmentImages` succeeds, every returned
segment holds between 1 and 100 images with pairwise distinct file paths and a
total weight of at least 1, and every image has a path `directory/name` whose
name matches the grammar `traitType-traitValue-weight-ordinal.png`, the weight
field being the third field of `name.split('-')`, and has an integer weight in
`[1,100]` equal to the decimal value of that field. -/
theorem getSegmentImages_invariants (readdir : Str → Except Str (List Str))
    (foldersPath : Str) (segments : List Segment)
    (h : getSegmentImages readdir foldersPath = .ok segments) :
    ∀ seg ∈ segments,
      1 ≤ seg.images.length ∧ seg.images.length ≤ 100 ∧
      (seg.images.map (fun el => el.file)).Nodup ∧
      1 ≤ totalWeight seg.images ∧
      ∀ img ∈ seg.images, ∃ dir name t v w o : Str,
        img.file = dir ++ "/".toList ++ name ∧ MatchesGrammar name t v w o ∧
        (split '-' name).get? 2 = some w ∧
        img.weight = decimalValue w ∧ 1 ≤ img.weight ∧ img.weight ≤ 100 := by
  obtain ⟨segmentFolders, _, _, hmap⟩ := getSegmentImages_ok readdir foldersPath segments h
  intro seg hseg
  obtain ⟨folder, _, hfolder⟩ := forall₂_mem_right (mapOrThrow_ok_forall₂ _ _ _ hmap) seg hseg
  obtain ⟨imageFiles, _, himgs, hlo, hhi, hnd⟩ :=
    segmentOfFolder_ok readdir foldersPath folder seg hfolder
  have himg := getSegmentImages_image readdir foldersPath segments h seg hseg
  refine ⟨hlo, hhi, hnd, ?_, himg⟩
  cases hi : seg.images with
  | nil => rw [hi] at hlo; simp at hlo
  | cons el rest =>
    have hel : el ∈ seg.images := by rw [hi]; exact List.mem_cons_self _ _
    obtain ⟨_, _, _, _, _, _, _, _, _, _, h1, _⟩ := himg el hel
    rw [← hi]
    exact totalWeight_pos_of_mem _ el hel h1

/-- C3 (the code departs from the claim). The segments come out in the order of
the directory listing, not of the folder numbers: on the catalog of eleven
segments listed as `0, 1, 10, 2, ..., 9` the call succeeds, position 2 of its
result holds the image of folder `10` and position 10 that of folder `9`; and the
two listings `0, 1` and `1, 0` of one and the same two-segment catalog give
different segment lists, the second with the images of folder `1` at position 0. -/
theorem getSegmentImages_follows_listing_order :
    ((getSegmentImages (readdirOf elevenCatalog) "images/e".toList).map
        (fun segments => (segments.length, segments.get? 2, segments.get? 10))
      = .ok (11, some ⟨[⟨"images/e/10/frame-j-1-1.png".toList, 1⟩]⟩,
          some ⟨[⟨"images/e/9/hat-i-1-1.png".toList, 1⟩]⟩)) ∧
    getSegmentImages (readdirOf scenarioCatalog) "images/c".toList
      = .ok [⟨[⟨"images/c/0/bg-red-50-1.png".toList, 50⟩,
              ⟨"images/c/0/bg-blue-50-2.png".toList, 50⟩]⟩,
            ⟨[⟨"images/c/1/hat-none-100-1.png".toList, 100⟩]⟩] ∧
    getSegmentImages (readdirOf scenarioCatalogReversed) "images/c".toList
      = .ok [⟨[⟨"images/c/1/hat-none-100-1.png".toList, 100⟩]⟩,
            ⟨[⟨"images/c/0/bg-red-50-1.png".toList, 50⟩,
              ⟨"images/c/0/bg-blue-50-2.png".toList, 50⟩]⟩] := by
  refine ⟨?_, ?_, ?_⟩ <;> decide

/-- C9 (the code departs from the claim). Whatever the catalog and whatever the
violation, the error `getSegmentImages` throws carries the one message
`Failed to fetch segment images: `, with no folder or file name in it. -/
theorem getSegmentImages_error_message (readdir : Str → Except Str (List Str))
    (foldersPath e : Str) (h : getSegmentImages readdir foldersPath = .error e) :
    e = "Failed to fetch segment images: ".toList := by
  unfold getSegmentImages at h
  split at h
  · simp only [Except.error.injEq] at h
    exact h.symm
  · cases h

/-- C9 at concrete catalogs. Two catalogs rejected for different reasons, a folder named `layers` and a
weight of 0: inside the `try` block the errors name the folder and the file, and
the errors thrown to the caller are the same. -/
theorem getSegmentImages_error_message_witness :
    getSegmentImagesTry (readdirOf badFolderCatalog) "images/b".toList
      = .error "Segment folder name must be a number: layers".toList ∧
    getSegmentImagesTry (readdirOf badWeightCatalog) "images/w".toList
      = .error "Invalid weight in file name: bg-red-0-1.png".toList ∧
    getSegmentImages (readdirOf badFolderCatalog) "images/b".toList
      = getSegmentImages (readdirOf badWeightCatalog) "images/w".toList ∧
    "Failed to fetch segment images: ".toList = "Failed to fetch segment images: ".toList :=
  ⟨by decide, by decide, by decide,
    getSegmentImages_error_message (readdirOf badFolderCatalog) "images/b".toList
      "Failed to fetch segment images: ".toList (by decide)⟩

/-! ## Lemmas on `compressImage` -/

/-- The recursion bound plays no part: any fuel of at least the quality gives the
same result, which is never the bound's own error. -/
theorem compressImageFrom_fuel (size : Nat → Nat) (fuel quality : Nat) (h : quality ≤ fuel) :
    compressImageFrom size fuel quality = compressImageFrom size quality quality ∧
      compressImageFrom size fuel quality ≠ .error "recursion bound reached".toList := by
  have key : ∀ (q f : Nat), q ≤ f → ∀ g, q ≤ g →
      compressImageFrom size f q = compressImageFrom size g q ∧
      compressImageFrom size f q ≠ .error "recursion bound reached".toList := by
    intro q
    induction q using Nat.strong_induction_on with
    | _ q ih =>
      intro f hf g hg
      by_cases hs : size q > 10 * 1024 * 1024
      · by_cases hq : q > 10
        · cases f with
          | zero => omega
          | succ f =>
            cases g with
            | zero => omega
            | succ g =>
              rw [compressImageFrom.eq_def size (f + 1) q, compressImageFrom.eq_def size (g + 1) q]
              simp only [hs, hq, if_true]
              exact ih (q - 5) (by omega) f (by omega) g (by omega)
        · rw [compressImageFrom.eq_def size f q, compressImageFrom.eq_def size g q]
          simp only [hs, hq, if_true, if_false]
          exact ⟨trivial, by decide⟩
      · rw [compressImageFrom.eq_def size f q, compressImageFrom.eq_def size g q]
        simp only [hs, if_false]
        exact ⟨trivial, by simp⟩
  exact key quality fuel h quality (le_refl _)

theorem compressImage_ladderFrom (size : Nat → Nat) (k fuel : Nat) (hf : k ≤ fuel) :
    compressImageFrom size fuel (10 + 5 * k) = compressReference size (ladderFrom k) := by
  induction k generalizing fuel with
  | zero =>
    rw [compressImageFrom.eq_def]
    by_cases h : size 10 > 10 * 1024 * 1024
    · have h2 : ¬ size 10 ≤ maxBytes := by unfold maxBytes; omega
      simp [h, compressReference, ladderFrom, h2]
    · have h2 : size 10 ≤ maxBytes := by unfold maxBytes; omega
      simp [h, compressReference, ladderFrom, h2]
  | succ k ih =>
    cases fuel with
    | zero => omega
    | succ fuel =>
      rw [compressImageFrom.eq_def]
      by_cases h : size (10 + 5 * (k + 1)) > 10 * 1024 * 1024
      · have h2 : ¬ size (10 + 5 * (k + 1)) ≤ maxBytes := by unfold maxBytes; omega
        have h3 : 10 + 5 * (k + 1) > 10 := by omega
        have h4 : 10 + 5 * (k + 1) - 5 = 10 + 5 * k := by omega
        simp only [h, h3, if_true, h4]
        rw [ih fuel (by omega)]
        simp [compressReference, ladderFrom, h2]
      · have h2 : size (10 + 5 * (k + 1)) ≤ maxBytes := by unfold maxBytes; omega
        simp only [h, if_false]
        simp [compressReference, ladderFrom, h2]

/-- C5. For every encoder `size`, `compressImage` started at quality 100 returns
(it is a total function, whose recursion bound is never reached), and its result
is that of the reference: walk
the qualities 100, 95, ..., 10 in that order and succeed at the first `q` with
`size q ≤ 10 * 1024 * 1024`, the file being left encoded at that `q`; it fails if
and only if `size q` exceeds the cap at every quality of the ladder, 10
included. -/
theorem compressImage_eq_reference (size : Nat → Nat) :
    compressImage size 100 = compressReference size qualityLadder ∧
    (∀ q, compressImage size 100 = .ok q ↔
      qualityLadder.find? (fun q => size q ≤ 10 * 1024 * 1024) = some q) ∧
    ((∃ e, compressImage size 100 = .error e) ↔
      ∀ q ∈ qualityLadder, 10 * 1024 * 1024 < size q) := by
  have h : compressImage size 100 = compressReference size qualityLadder :=
    compressImage_ladderFrom size 18 100 (by decide)
  refine ⟨h, ?_, ?_⟩
  · intro q
    rw [h]
    unfold compressReference maxBytes
    cases hf : qualityLadder.find? (fun q => size q ≤ 10 * 1024 * 1024) with
    | none => simp
    | some q2 => simp
  · rw [h]
    unfold compressReference maxBytes
    cases hf : qualityLadder.find? (fun q => size q ≤ 10 * 1024 * 1024) with
    | none =>
      simp only [Except.error.injEq, exists_eq', true_iff]
      intro q hq
      have := List.find?_eq_none.1 hf q hq
      simpa using this
    | some q2 =>
      simp only [reduceCtorEq, exists_false, false_iff]
      intro hall
      have hmem := List.mem_of_find?_eq_some hf
      have hsat := List.find?_some hf
      have := hall q2 hmem
      simp only [decide_eq_true_eq] at hsat
      omega

/-- C10 (the code departs from the claim). The middleware hands every request on
with `next()`, whatever its `authorization` header and whatever `jwt.verify`
would answer: a request with no header gets no 403 response. The statements
after the early `return next();` would have answered such a request with 403 and
`Authentication token not provided`. -/
theorem verifyToken_always_next (jwtVerify : Str → Option Str) (req : Request) :
    verifyToken jwtVerify req = .next ∧
    verifyTokenUnreachable jwtVerify { authorization := none }
      = .respond 403 "Authentication token not provided".toList none := by
  exact ⟨rfl, rfl⟩
/-! ## Lemmas on the rounded division -/

theorem leadingBit_spec (fuel n p k : Nat) (hp : 1 ≤ p) (hpn : p ≤ n) (hf : n - p ≤ fuel)
    (hk : p = 2 ^ k) :
    (leadingBit fuel n p k).1 = 2 ^ (leadingBit fuel n p k).2 ∧
      (leadingBit fuel n p k).1 ≤ n ∧ n < 2 * (leadingBit fuel n p k).1 := by
  induction fuel generalizing p k with
  | zero =>
    simp only [leadingBit]
    exact ⟨hk, hpn, by omega⟩
  | succ fuel ih =>
    unfold leadingBit
    by_cases h : 2 * p ≤ n
    · rw [if_pos h]
      exact ih (2 * p) (k + 1) (by omega) h (by omega) (by rw [hk, pow_succ]; ring)
    · rw [if_neg h]
      exact ⟨hk, hpn, by omega⟩

/-- The rounding step: the significand chosen is within one half of the quotient. -/
theorem round_half (n d : Nat) (hd : 0 < d) :
    let m0 := n / d
    let rem := n % d
    let m := if 2 * rem < d then m0 else if d < 2 * rem then m0 + 1
      else if m0 % 2 = 0 then m0 else m0 + 1
    |(n : ℚ) / d - m| ≤ 1 / 2 := by
  intro m0 rem m
  have hdq : (0 : ℚ) < d := by exact_mod_cast hd
  have hn : (n : ℚ) = d * m0 + rem := by
    have := Nat.div_add_mod n d
    exact_mod_cast this.symm
  have hrem : rem < d := Nat.mod_lt n hd
  have hcase : (m = m0 ∧ 2 * rem ≤ d) ∨ (m = m0 + 1 ∧ d ≤ 2 * rem) := by
    show ((if 2 * rem < d then m0 else if d < 2 * rem then m0 + 1
      else if m0 % 2 = 0 then m0 else m0 + 1) = m0 ∧ 2 * rem ≤ d) ∨
      ((if 2 * rem < d then m0 else if d < 2 * rem then m0 + 1
      else if m0 % 2 = 0 then m0 else m0 + 1) = m0 + 1 ∧ d ≤ 2 * rem)
    split_ifs with h1 h2 h3
    · exact Or.inl ⟨rfl, by omega⟩
    · exact Or.inr ⟨rfl, by omega⟩
    · exact Or.inl ⟨rfl, by omega⟩
    · exact Or.inr ⟨rfl, by omega⟩
  rcases hcase with ⟨hm, hle⟩ | ⟨hm, hle⟩
  · rw [hm, hn]
    have hle2 : (2 : ℚ) * rem ≤ d := by exact_mod_cast hle
    have : ((d : ℚ) * m0 + rem) / d - m0 = rem / d := by field_simp
    rw [this, abs_le]
    constructor
    · have : (0 : ℚ) ≤ rem / d := by positivity
      linarith
    · rw [div_le_iff₀ hdq]; linarith
  · rw [hm, hn]
    have hle2 : (d : ℚ) ≤ 2 * rem := by exact_mod_cast hle
    have hrem2 : (rem : ℚ) < d := by exact_mod_cast hrem
    have : ((d : ℚ) * m0 + rem) / d - ((m0 + 1 : ℕ) : ℚ) = (rem - d) / d := by
      push_cast; field_simp; ring
    rw [this, abs_le]
    constructor
    · rw [le_div_iff₀ hdq]; linarith
    · rw [div_le_iff₀ hdq]; linarith

/-- The relative error of the rounding is at most `2^-53`. -/
theorem roundScaled_error (n d0 : Nat) (e0 : Int) (hd0 : 0 < d0) (hlow : 2 ^ 52 * d0 ≤ n) :
    |(n : ℚ) / d0 * (2 : ℚ) ^ e0 - quotientValue (roundScaled n d0 e0)|
      ≤ (n : ℚ) / d0 * (2 : ℚ) ^ e0 / 2 ^ 53 := by
  have h2 : ∀ z : ℤ, (0 : ℚ) < (2 : ℚ) ^ z := fun z => zpow_pos (by norm_num) z
  have h2ne : (2 : ℚ) ≠ 0 := by norm_num
  have hd0q : (0 : ℚ) < d0 := by exact_mod_cast hd0
  -- the normalised denominator and exponent
  obtain ⟨d, e, hd, hlow2, hx, hdef⟩ : ∃ (d : Nat) (e : Int), 0 < d ∧ 2 ^ 52 * d ≤ n ∧
      (n : ℚ) / d0 * (2 : ℚ) ^ e0 = (n : ℚ) / d * (2 : ℚ) ^ e ∧
      roundScaled n d0 e0 =
        (let m0 := n / d
         let rem := n % d
         let m := if 2 * rem < d then m0 else if d < 2 * rem then m0 + 1
           else if m0 % 2 = 0 then m0 else m0 + 1
         if m = 2 ^ 53 then (2 ^ 52, e + 1) else (m, e)) := by
    by_cases hc : 2 ^ 53 * d0 ≤ n
    · refine ⟨2 * d0, e0 + 1, by omega, by omega, ?_, ?_⟩
      · rw [zpow_add₀ h2ne]
        push_cast
        field_simp
        ring
      · simp only [roundScaled, hc, if_true]
    · refine ⟨d0, e0, hd0, hlow, rfl, ?_⟩
      simp only [roundScaled, hc, if_false]
  have hdq : (0 : ℚ) < d := by exact_mod_cast hd
  have hhalf := round_half n d hd
  simp only at hhalf hdef
  generalize hm : (if 2 * (n % d) < d then n / d else if d < 2 * (n % d) then n / d + 1
      else if n / d % 2 = 0 then n / d else n / d + 1) = m at hhalf hdef
  have hval : quotientValue (roundScaled n d0 e0) = (m : ℚ) * (2 : ℚ) ^ e := by
    rw [hdef]
    by_cases h53 : m = 2 ^ 53
    · simp only [h53, if_true, quotientValue]
      rw [zpow_add₀ h2ne]
      push_cast
      ring
    · simp only [h53, if_false, quotientValue]
  have hq : (2 : ℚ) ^ 52 ≤ (n : ℚ) / d := by
    rw [le_div_iff₀ hdq]
    exact_mod_cast hlow2
  rw [hx, hval]
  have hfac : (n : ℚ) / d * (2 : ℚ) ^ e - (m : ℚ) * (2 : ℚ) ^ e
      = ((n : ℚ) / d - m) * (2 : ℚ) ^ e := by ring
  rw [hfac, abs_mul, abs_of_pos (h2 e)]
  have h3 : |(n : ℚ) / d - m| * (2 : ℚ) ^ e ≤ 1 / 2 * (2 : ℚ) ^ e :=
    mul_le_mul_of_nonneg_right hhalf (le_of_lt (h2 e))
  have h4 : (1 : ℚ) / 2 * (2 : ℚ) ^ e ≤ (n : ℚ) / d * (2 : ℚ) ^ e / 2 ^ 53 := by
    rw [le_div_iff₀ (by positivity)]
    have := mul_le_mul_of_nonneg_right hq (le_of_lt (h2 e))
    calc 1 / 2 * (2 : ℚ) ^ e * 2 ^ 53 = 2 ^ 52 * (2 : ℚ) ^ e := by ring
      _ ≤ (n : ℚ) / d * (2 : ℚ) ^ e := this
  exact le_trans h3 h4

theorem roundQuotient_error (a b : Nat) (ha : 0 < a) (hb : 0 < b) :
    |(a : ℚ) / b - quotientValue (roundQuotient a b)| ≤ (a : ℚ) / b / 2 ^ 53 := by
  obtain ⟨hA1, hA2, hA3⟩ := leadingBit_spec a a 1 0 (le_refl 1) ha (by omega) (by simp)
  obtain ⟨hB1, hB2, hB3⟩ := leadingBit_spec b b 1 0 (le_refl 1) hb (by omega) (by simp)
  generalize hA : leadingBit a a 1 0 = A at hA1 hA2 hA3
  generalize hB : leadingBit b b 1 0 = B at hB1 hB2 hB3
  have hApos : 0 < A.1 := by rw [hA1]; positivity
  have hBpos : 0 < B.1 := by rw [hB1]; positivity
  have hd0 : 0 < b * A.1 := Nat.mul_pos hb hApos
  have hlow : 2 ^ 52 * (b * A.1) ≤ a * (2 ^ 53 * B.1) := by
    have h1 : b * A.1 ≤ (2 * B.1) * a := Nat.mul_le_mul (le_of_lt hB3) hA2
    calc 2 ^ 52 * (b * A.1) ≤ 2 ^ 52 * ((2 * B.1) * a) := Nat.mul_le_mul_left _ h1
      _ = a * (2 ^ 53 * B.1) := by ring
  have key := roundScaled_error (a * (2 ^ 53 * B.1)) (b * A.1)
    ((A.2 : Int) - (B.2 : Int) - 53) hd0 hlow
  have hx : ((a * (2 ^ 53 * B.1) : ℕ) : ℚ) / ((b * A.1 : ℕ) : ℚ)
      * (2 : ℚ) ^ ((A.2 : Int) - (B.2 : Int) - 53) = (a : ℚ) / b := by
    have hbq : (b : ℚ) ≠ 0 := by exact_mod_cast hb.ne'
    rw [zpow_sub₀ (by norm_num), zpow_sub₀ (by norm_num)]
    push_cast
    rw [hA1, hB1]
    push_cast
    simp only [zpow_natCast]
    have : (2 : ℚ) ^ (53 : ℤ) = 2 ^ 53 := by norm_cast
    rw [this]
    field_simp
    ring
  rw [hx] at key
  show |(a : ℚ) / b - quotientValue (roundQuotient a b)| ≤ _
  unfold roundQuotient
  simp only [hA, hB]
  exact key

/-- Two quotients with the same rounding are equal when their cross products
together stay below `2^53`. -/
theorem roundQuotient_injective (a b c d : Nat) (ha : 0 < a) (hb : 0 < b) (hc : 0 < c)
    (hd : 0 < d) (h : roundQuotient a b = roundQuotient c d)
    (hbound : a * d + b * c < 2 ^ 53) : a * d = b * c := by
  have hx := roundQuotient_error a b ha hb
  have hy := roundQuotient_error c d hc hd
  rw [← h] at hy
  generalize quotientValue (roundQuotient a b) = v at hx hy
  have hbq : (0 : ℚ) < b := by exact_mod_cast hb
  have hdq : (0 : ℚ) < d := by exact_mod_cast hd
  have haq : (0 : ℚ) < a := by exact_mod_cast ha
  have hcq : (0 : ℚ) < c := by exact_mod_cast hc
  rw [abs_le] at hx hy
  have h1 : (a : ℚ) / b - c / d ≤ ((a : ℚ) / b + c / d) / 2 ^ 53 := by
    have : ((a : ℚ) / b + c / d) / 2 ^ 53 = a / b / 2 ^ 53 + c / d / 2 ^ 53 := by ring
    linarith [hx.1, hx.2, hy.1, hy.2]
  have h2 : (c : ℚ) / d - a / b ≤ ((a : ℚ) / b + c / d) / 2 ^ 53 := by
    have : ((a : ℚ) / b + c / d) / 2 ^ 53 = a / b / 2 ^ 53 + c / d / 2 ^ 53 := by ring
    linarith [hx.1, hx.2, hy.1, hy.2]
  have hsum : (a : ℚ) / b + c / d = ((a : ℚ) * d + b * c) / (b * d) := by
    field_simp
    ring
  have hdiff1 : (a : ℚ) / b - c / d = ((a : ℚ) * d - b * c) / (b * d) := by
    field_simp
  have hdiff2 : (c : ℚ) / d - a / b = ((b : ℚ) * c - a * d) / (b * d) := by
    field_simp
    ring
  have hbd : (0 : ℚ) < b * d := mul_pos hbq hdq
  have hB : ((a : ℚ) * d + b * c) < 2 ^ 53 := by exact_mod_cast hbound
  rw [hsum, hdiff1, div_div, div_le_div_iff₀ hbd (by positivity)] at h1
  rw [hsum, hdiff2, div_div, div_le_div_iff₀ hbd (by positivity)] at h2
  -- clear the common factor `b * d`
  have h1' : ((a : ℚ) * d - b * c) * 2 ^ 53 ≤ (a : ℚ) * d + b * c := by
    have : ((a : ℚ) * d - b * c) * 2 ^ 53 * (b * d) ≤ ((a : ℚ) * d + b * c) * (b * d) := by
      linarith
    exact le_of_mul_le_mul_right this hbd
  have h2' : ((b : ℚ) * c - a * d) * 2 ^ 53 ≤ (a : ℚ) * d + b * c := by
    have : ((b : ℚ) * c - a * d) * 2 ^ 53 * (b * d) ≤ ((a : ℚ) * d + b * c) * (b * d) := by
      linarith
    exact le_of_mul_le_mul_right this hbd
  by_contra hne
  rcases Nat.lt_or_gt_of_ne hne with hlt | hgt
  · have : (a : ℚ) * d + 1 ≤ b * c := by exact_mod_cast hlt
    nlinarith
  · have : (b : ℚ) * c + 1 ≤ a * d := by exact_mod_cast hgt
    nlinarith

/-- Equal quotients have the same lowest terms. -/
theorem lowest_terms_eq (a b c d : Nat) (hb : 0 < b) (hd : 0 < d)
    (h : a * d = b * c) :
    a / Nat.gcd a b = c / Nat.gcd c d ∧ b / Nat.gcd a b = d / Nat.gcd c d := by
  have hg1 : 0 < Nat.gcd a b := Nat.gcd_pos_of_pos_right a hb
  have hg2 : 0 < Nat.gcd c d := Nat.gcd_pos_of_pos_right c hd
  have hcop1 := Nat.coprime_div_gcd_div_gcd hg1
  have hcop2 := Nat.coprime_div_gcd_div_gcd hg2
  have hb1 : 0 < b / Nat.gcd a b := Nat.div_pos (Nat.le_of_dvd hb (Nat.gcd_dvd_right a b)) hg1
  have hd1 : 0 < d / Nat.gcd c d := Nat.div_pos (Nat.le_of_dvd hd (Nat.gcd_dvd_right c d)) hg2
  have ha2 : a / Nat.gcd a b * Nat.gcd a b = a := Nat.div_mul_cancel (Nat.gcd_dvd_left a b)
  have hb2 : b / Nat.gcd a b * Nat.gcd a b = b := Nat.div_mul_cancel (Nat.gcd_dvd_right a b)
  have hc2 : c / Nat.gcd c d * Nat.gcd c d = c := Nat.div_mul_cancel (Nat.gcd_dvd_left c d)
  have hd2 : d / Nat.gcd c d * Nat.gcd c d = d := Nat.div_mul_cancel (Nat.gcd_dvd_right c d)
  generalize a / Nat.gcd a b = a1 at *
  generalize b / Nat.gcd a b = b1 at *
  generalize c / Nat.gcd c d = c1 at *
  generalize d / Nat.gcd c d = d1 at *
  generalize Nat.gcd a b = g1 at *
  generalize Nat.gcd c d = g2 at *
  -- the reduced cross products agree
  have hcross : a1 * d1 = b1 * c1 := by
    have : (a1 * d1) * (g1 * g2) = (b1 * c1) * (g1 * g2) := by
      calc (a1 * d1) * (g1 * g2) = (a1 * g1) * (d1 * g2) := by ring
        _ = a * d := by rw [ha2, hd2]
        _ = b * c := h
        _ = (b1 * g1) * (c1 * g2) := by rw [hb2, hc2]
        _ = (b1 * c1) * (g1 * g2) := by ring
    exact Nat.eq_of_mul_eq_mul_right (Nat.mul_pos hg1 hg2) this
  have hq : ((a1 : ℤ) : ℚ) / ((b1 : ℤ) : ℚ) = ((c1 : ℤ) : ℚ) / ((d1 : ℤ) : ℚ) := by
    have hb1q : ((b1 : ℤ) : ℚ) ≠ 0 := by exact_mod_cast hb1.ne'
    have hd1q : ((d1 : ℤ) : ℚ) ≠ 0 := by exact_mod_cast hd1.ne'
    rw [div_eq_div_iff hb1q hd1q]
    have : ((a1 * d1 : ℕ) : ℚ) = ((b1 * c1 : ℕ) : ℚ) := by rw [hcross]
    push_cast at this ⊢
    linarith
  have hn1 := Rat.num_div_eq_of_coprime (a := (a1 : ℤ)) (b := (b1 : ℤ))
    (by exact_mod_cast hb1) (by simpa using hcop1)
  have hn2 := Rat.num_div_eq_of_coprime (a := (c1 : ℤ)) (b := (d1 : ℤ))
    (by exact_mod_cast hd1) (by simpa using hcop2)
  have hd1' := Rat.den_div_eq_of_coprime (a := (a1 : ℤ)) (b := (b1 : ℤ))
    (by exact_mod_cast hb1) (by simpa using hcop1)
  have hd2' := Rat.den_div_eq_of_coprime (a := (c1 : ℤ)) (b := (d1 : ℤ))
    (by exact_mod_cast hd1) (by simpa using hcop2)
  rw [hq] at hn1 hd1'
  constructor
  · have : (a1 : ℤ) = c1 := hn1.symm.trans hn2
    exact_mod_cast this
  · have : (b1 : ℤ) = d1 := hd1'.symm.trans hd2'
    exact_mod_cast this

theorem jsDivide_pos (a b : Nat) (ha : 0 < a) (hb : 0 < b) :
    jsDivide a b = .finite (roundQuotient (a / Nat.gcd a b) (b / Nat.gcd a b)).1
      (roundQuotient (a / Nat.gcd a b) (b / Nat.gcd a b)).2 := by
  unfold jsDivide
  simp [hb.ne', ha.ne']

/-- Below the bound the JavaScript quotients of positive integers are equal
exactly when the fractions are. -/
theorem jsDivide_eq_iff (a b c d : Nat) (ha : 0 < a) (hb : 0 < b) (hc : 0 < c) (hd : 0 < d)
    (hbound : a * d + b * c < 2 ^ 53) :
    jsDivide a b = jsDivide c d ↔ a * d = b * c := by
  have hg1 : 0 < Nat.gcd a b := Nat.gcd_pos_of_pos_right a hb
  have hg2 : 0 < Nat.gcd c d := Nat.gcd_pos_of_pos_right c hd
  have ha2 : a / Nat.gcd a b * Nat.gcd a b = a := Nat.div_mul_cancel (Nat.gcd_dvd_left a b)
  have hb2 : b / Nat.gcd a b * Nat.gcd a b = b := Nat.div_mul_cancel (Nat.gcd_dvd_right a b)
  have hc2 : c / Nat.gcd c d * Nat.gcd c d = c := Nat.div_mul_cancel (Nat.gcd_dvd_left c d)
  have hd2 : d / Nat.gcd c d * Nat.gcd c d = d := Nat.div_mul_cancel (Nat.gcd_dvd_right c d)
  have ha1 : 0 < a / Nat.gcd a b := Nat.div_pos (Nat.le_of_dvd ha (Nat.gcd_dvd_left a b)) hg1
  have hb1 : 0 < b / Nat.gcd a b := Nat.div_pos (Nat.le_of_dvd hb (Nat.gcd_dvd_right a b)) hg1
  have hc1 : 0 < c / Nat.gcd c d := Nat.div_pos (Nat.le_of_dvd hc (Nat.gcd_dvd_left c d)) hg2
  have hd1 : 0 < d / Nat.gcd c d := Nat.div_pos (Nat.le_of_dvd hd (Nat.gcd_dvd_right c d)) hg2
  rw [jsDivide_pos a b ha hb, jsDivide_pos c d hc hd]
  constructor
  · intro h
    have hr : roundQuotient (a / Nat.gcd a b) (b / Nat.gcd a b)
        = roundQuotient (c / Nat.gcd c d) (d / Nat.gcd c d) := by
      injection h with h1 h2
      exact Prod.ext h1 h2
    have hle : a / Nat.gcd a b * (d / Nat.gcd c d) + b / Nat.gcd a b * (c / Nat.gcd c d)
        ≤ a * d + b * c :=
      Nat.add_le_add
        (Nat.mul_le_mul (Nat.div_le_self _ _) (Nat.div_le_self _ _))
        (Nat.mul_le_mul (Nat.div_le_self _ _) (Nat.div_le_self _ _))
    have hcross := roundQuotient_injective _ _ _ _ ha1 hb1 hc1 hd1 hr (by omega)
    calc a * d = (a / Nat.gcd a b * Nat.gcd a b) * (d / Nat.gcd c d * Nat.gcd c d) := by
          rw [ha2, hd2]
      _ = (a / Nat.gcd a b * (d / Nat.gcd c d)) * (Nat.gcd a b * Nat.gcd c d) := by ring
      _ = (b / Nat.gcd a b * (c / Nat.gcd c d)) * (Nat.gcd a b * Nat.gcd c d) := by
          rw [hcross]
      _ = (b / Nat.gcd a b * Nat.gcd a b) * (c / Nat.gcd c d * Nat.gcd c d) := by ring
      _ = b * c := by rw [hb2, hc2]
  · intro h
    obtain ⟨e1, e2⟩ := lowest_terms_eq a b c d hb hd h
    rw [e1, e2]

theorem strictNotEqual_finite (x y : JsQuotient) (hx : x ≠ .nan) (hy : y ≠ .nan) :
    strictNotEqual x y = false ↔ x = y := by
  unfold strictNotEqual
  simp [hx, hy]

/-- The check under a bound on the cross products. For a first drawn image of
positive dimensions `(w0, h0)` and a later one of positive dimensions `(w, h)`
with `w0 * h + h0 * w < 2^53` (which holds whenever all four dimensions are below
`2^26`), the composition loop finds no mismatch, and so accepts the later layer,
if and only if `w0 * h = h0 * w`. -/
theorem dimensionsMismatch_false_iff (w0 h0 w h : Nat) (hw0 : 0 < w0) (hh0 : 0 < h0)
    (hw : 0 < w) (hh : 0 < h) (hbound : w0 * h + h0 * w < 2 ^ 53) :
    dimensionsMismatch w0 h0 w h = false ↔ w0 * h = h0 * w := by
  have hfin : ∀ a b : Nat, 0 < a → 0 < b → jsDivide a b ≠ .nan := by
    intro a b ha hb
    rw [jsDivide_pos a b ha hb]
    intro hcon
    cases hcon
  unfold dimensionsMismatch
  by_cases hge : w0 ≥ h0
  · rw [if_pos hge, strictNotEqual_finite _ _ (hfin _ _ hw0 hh0) (hfin _ _ hw hh),
      jsDivide_eq_iff w0 h0 w h hw0 hh0 hw hh hbound]
  · rw [if_neg hge, strictNotEqual_finite _ _ (hfin _ _ hh0 hw0) (hfin _ _ hh hw),
      jsDivide_eq_iff h0 w0 h w hh0 hw0 hh hw (by omega)]
    constructor <;> intro h2 <;> omega

/-- The bound on the cross products at concrete sizes. The layers of the
specification's examples: 512x512 with 1024x1024 is found to
match, 512x512 with 512x256 is not. -/
theorem dimensionsMismatch_false_iff_witness :
    (dimensionsMismatch 512 512 1024 1024 = false ↔ 512 * 1024 = 512 * 1024) ∧
    dimensionsMismatch 512 512 1024 1024 = false ∧
    dimensionsMismatch 512 512 512 256 = true :=
  ⟨dimensionsMismatch_false_iff 512 512 1024 1024 (by decide) (by decide) (by decide)
    (by decide) (by decide), by decide, by decide⟩

/-- Why the sizes are those of decoded images. On numbers no image has, the
comparison of the quotients is not exact: a layer 134217730 x 134217729 would be
accepted after a first layer 134217729 x 134217728, although the cross products
differ by one, because both quotients round to the same double, `1 + 2^-27`. -/
theorem dimensionsMismatch_accepts_unequal_ratios :
    ¬ (dimensionsMismatch 134217729 134217728 134217730 134217729 = false ↔
        134217729 * 134217729 = 134217728 * 134217730) := by
  decide
/-! ## Lemmas on the `/generate` handler -/

theorem getRandomElementLoop_mem (random : Nat) (elements : List Image) (sum : Nat) (el : Image)
    (h : getRandomElementLoop random elements sum = some el) : el ∈ elements := by
  induction elements generalizing sum with
  | nil => simp [getRandomElementLoop] at h
  | cons a rest ih =>
    unfold getRandomElementLoop at h
    split at h
    · simp only [Option.some.injEq] at h
      subst h
      exact List.mem_cons_self _ _
    · exact List.mem_cons_of_mem _ (ih _ h)

theorem basename_append (dir name : Str) (hne : name ≠ []) (hslash : ∀ c ∈ name, c ≠ '/') :
    basename (dir ++ "/".toList ++ name) = name := by
  unfold basename
  have hrev : (dir ++ "/".toList ++ name).reverse = name.reverse ++ '/' :: dir.reverse := by
    simp [String.toList]
  rw [hrev]
  have hne2 : name.reverse ≠ [] := by simpa using hne
  obtain ⟨c, tail, hct⟩ := List.exists_cons_of_ne_nil hne2
  have hcmem : c ∈ name := by
    have : c ∈ name.reverse := by rw [hct]; exact List.mem_cons_self _ _
    simpa using this
  have hdrop : (name.reverse ++ '/' :: dir.reverse).dropWhile (fun c => c == '/')
      = name.reverse ++ '/' :: dir.reverse := by
    have hcf : (c == '/') = false := by simpa using hslash c hcmem
    rw [hct]
    simp [List.dropWhile, hcf]
  rw [hdrop]
  have htake : (name.reverse ++ '/' :: dir.reverse).takeWhile (fun c => c != '/')
      = name.reverse := by
    have hall : ∀ c ∈ name.reverse, (fun c => c != '/') c = true := by
      intro d hd
      have : d ∈ name := by simpa using hd
      simpa using hslash d this
    clear hdrop hrev hct hne2
    generalize name.reverse = l at hall
    induction l with
    | nil => simp [List.takeWhile]
    | cons a rest ih =>
      have ha := hall a (List.mem_cons_self _ _)
      rw [List.cons_append, List.takeWhile_cons, if_pos ha,
        ih (fun d hd => hall d (List.mem_cons_of_mem _ hd))]
  rw [htake, List.reverse_reverse]

theorem isTokenChar_ne_slash (c : Char) (h : isTokenChar c = true) : c ≠ '/' := by
  rintro rfl
  revert h
  decide

theorem isDigit_ne_slash (c : Char) (h : c.isDigit = true) : c ≠ '/' := by
  rintro rfl
  revert h
  decide

theorem grammar_no_slash (name t v w o : Str) (h : MatchesGrammar name t v w o) :
    name ≠ [] ∧ ∀ c ∈ name, c ≠ '/' := by
  obtain ⟨ht, hv, hw, ho, rfl⟩ := h
  constructor
  · intro hnil
    have := congrArg List.length hnil
    simp at this
  · intro c hc
    simp only [List.mem_append, List.mem_cons, String.toList] at hc
    rcases hc with hc | rfl | hc | rfl | hc | rfl | hc | rfl | rfl | rfl | rfl | hc
    · exact isTokenChar_ne_slash c (ht.2 c hc)
    · decide
    · exact isTokenChar_ne_slash c (hv.2 c hc)
    · decide
    · exact isDigit_ne_slash c (hw.2 c hc)
    · decide
    · exact isDigit_ne_slash c (ho.2 c hc)
    · decide
    · decide
    · decide
    · decide
    · cases hc

/-- What a completed pass of the inner loop has pushed. -/
theorem drawLayers_ok (world : World) (i : Nat) (segments : List Segment)
    (k widthBase heightBase : Nat) (acc out : List Attribute)
    (h : drawLayers world i segments k widthBase heightBase acc = .ok out) :
    out.length = acc.length + segments.length ∧
    (∀ j, j < acc.length → out.get? j = acc.get? j) ∧
    ∀ j, j < segments.length → ∃ seg el,
      segments.get? j = some seg ∧
      getRandomElement seg.images (world.random i (k + j) (totalWeight seg.images)) = some el ∧
      out.get? (acc.length + j) = some (layerAttribute el.file) := by
  induction segments generalizing k widthBase heightBase acc with
  | nil =>
    simp only [drawLayers, Except.ok.injEq] at h
    subst h
    simp
  | cons segment rest ih =>
    unfold drawLayers at h
    cases hel : getRandomElement segment.images
        (world.random i k (totalWeight segment.images)) with
    | none => rw [hel] at h; cases h
    | some el =>
      rw [hel] at h
      simp only at h
      cases hload : world.loadImage el.file with
      | error e => rw [hload] at h; cases h
      | ok dims =>
        obtain ⟨width, height⟩ := dims
        rw [hload] at h
        simp only at h
        have hrec : ∃ wb hb, drawLayers world i rest (k + 1) wb hb
            (acc ++ [layerAttribute el.file]) = .ok out := by
          split at h
          · exact ⟨_, _, h⟩
          · split at h
            · cases h
            · exact ⟨_, _, h⟩
        obtain ⟨wb, hb, hrec⟩ := hrec
        obtain ⟨hlen, hpre, hnew⟩ := ih _ _ _ _ hrec
        refine ⟨?_, ?_, ?_⟩
        · rw [hlen]; simp; omega
        · intro j hj
          rw [hpre j (by simp; omega)]
          simp only [List.get?_eq_getElem?]
          exact List.getElem?_append_left (by omega)
        · intro j hj
          cases j with
          | zero =>
            refine ⟨segment, el, rfl, hel, ?_⟩
            rw [Nat.add_zero, hpre acc.length (by simp)]
            simp
          | succ j =>
            obtain ⟨seg, el2, h1, h2, h3⟩ := hnew j (by simpa using hj)
            refine ⟨seg, el2, by simpa using h1, ?_, ?_⟩
            · have : k + (j + 1) = k + 1 + j := by omega
              rw [this]; exact h2
            · have : acc.length + (j + 1) = (acc ++ [layerAttribute el.file]).length + j := by
                simp; omega
              rw [this]; exact h3

/-- What a completed run of the outer loop has pushed. -/
theorem generateArtifacts_ok (world : World) (segments : List Segment) (n i : Nat)
    (acc out : List (List Attribute))
    (h : generateArtifacts world segments n i acc = .ok out) :
    out.length = acc.length + n ∧
    (∀ j, j < acc.length → out.get? j = acc.get? j) ∧
    ∀ j, j < n → ∃ attrs, out.get? (acc.length + j) = some attrs ∧
      drawLayers world (i + j) segments 0 0 0 [] = .ok attrs := by
  induction n generalizing i acc with
  | zero =>
    simp only [generateArtifacts, Except.ok.injEq] at h
    subst h
    simp
  | succ n ih =>
    unfold generateArtifacts at h
    cases hdraw : drawLayers world i segments 0 0 0 [] with
    | error e => rw [hdraw] at h; cases h
    | ok attrs =>
      rw [hdraw] at h
      simp only at h
      split at h
      · cases h
      · cases hc : compressImage (world.encodedSize i) 100 with
        | error e => rw [hc] at h; cases h
        | ok q =>
          rw [hc] at h
          simp only at h
          obtain ⟨hlen, hpre, hnew⟩ := ih _ _ h
          refine ⟨?_, ?_, ?_⟩
          · rw [hlen]; simp; omega
          · intro j hj
            rw [hpre j (by simp; omega)]
            simp only [List.get?_eq_getElem?]
            exact List.getElem?_append_left (by omega)
          · intro j hj
            cases j with
            | zero =>
              refine ⟨attrs, ?_, hdraw⟩
              rw [Nat.add_zero, hpre acc.length (by simp)]
              simp
            | succ j =>
              obtain ⟨attrs2, h1, h2⟩ := hnew j (by omega)
              refine ⟨attrs2, ?_, ?_⟩
              · have : acc.length + (j + 1) = (acc ++ [attrs]).length + j := by simp; omega
                rw [this]; exact h1
              · have : i + (j + 1) = i + 1 + j := by omega
                rw [this]; exact h2
theorem generateTry_cases (world : World) (req : GenerateRequest) (gateway : Str) :
    (∃ e, generateTry world req gateway
        = { result := internalServerError e, uploads := [], metadata := [] }) ∨
    (∃ e, generateTry world req gateway
        = { result := internalServerError e, uploads := [.compressedImages], metadata := [] }) ∨
    ∃ segments attributes hashesImg result,
      getSegmentImages world.readdir ("images/".toList ++ req.imagesFolderPath) = .ok segments ∧
      generateArtifacts world segments req.count 0 [] = .ok attributes ∧
      generateTry world req gateway =
        { result := result, uploads := [.compressedImages, .metadata],
          metadata := (List.range req.count).map
            (metadataRecord req gateway hashesImg attributes) } ∧
      ((∃ e, result = internalServerError e) ∨ ∃ body, result = .response 200 body) := by
  unfold generateTry
  cases hseg : getSegmentImages world.readdir ("images/".toList ++ req.imagesFolderPath) with
  | error e => exact Or.inl ⟨e, rfl⟩
  | ok segments =>
    simp only
    cases hgen : generateArtifacts world segments req.count 0 [] with
    | error e => exact Or.inl ⟨e, rfl⟩
    | ok attributes =>
      simp only
      cases hup : uploadFilesToIPFS world .compressedImages with
      | error e => exact Or.inr (Or.inl ⟨e, rfl⟩)
      | ok hashesImg =>
        simp only
        cases hup2 : uploadFilesToIPFS world .metadata with
        | error e =>
          exact Or.inr (Or.inr ⟨segments, attributes, hashesImg, _, rfl, hgen, rfl,
            Or.inl ⟨e, rfl⟩⟩)
        | ok hash =>
          exact Or.inr (Or.inr ⟨segments, attributes, hashesImg, _, rfl, hgen, rfl,
            Or.inr ⟨_, rfl⟩⟩)

/-- C7 (the code departs from the claim). The handler never answers with status
400, whatever the world and the validated request; on the scenario with a hat of
another shape (512 x 256 after a first layer of 512 x 512) it answers 500
`Internal Server Error` with the details of a `ReferenceError`, having uploaded
nothing and written no metadata. -/
theorem generateHandler_mismatch_response :
    (∀ (world : World) (req : GenerateRequest) (body : List (Str × Str)),
        (generateHandler world req).result ≠ .response 400 body) ∧
    generateHandler mismatchWorld scenarioRequest =
      { result := .response 500 [("error".toList, "Internal Server Error".toList),
          ("details".toList, "Cannot access 'outputDir' before initialization".toList)],
        uploads := [], metadata := [] } := by
  constructor
  · intro world req body
    unfold generateHandler
    split
    · simp
    · split
      · simp
      · rcases generateTry_cases world req req.gatewayPinata with
          ⟨e, h⟩ | ⟨e, h⟩ | ⟨_, _, _, result, _, _, h, hres⟩
        · rw [h]; simp [internalServerError]
        · rw [h]; simp [internalServerError]
        · rw [h]
          rcases hres with ⟨e, rfl⟩ | ⟨b, rfl⟩
          · simp [internalServerError]
          · simp
  · decide

/-- What holds of the attributes on every catalog. Every metadata record the
handler writes, at an index `i`, has `i` below the requested count and carries as
`attributes` a list with exactly one entry per segment of the list
`getSegmentImages` returns, in the order of that list: the entry at position `k` has
as `trait_type` and `value` the first and second hyphen-separated fields of the
base name of the file drawn from segment `k` for artifact `i`, which are the
`traitType` and `traitValue` of that file's name. When the handler answers 200 it
has written one record for every index below the count. -/
theorem generateHandler_attributes (world : World) (req : GenerateRequest) :
    (∀ (i : Nat) (record : Metadata),
      (generateHandler world req).metadata.get? i = some record →
      i < req.count ∧
      ∃ segments attrs,
        getSegmentImages world.readdir ("images/".toList ++ req.imagesFolderPath)
          = .ok segments ∧
        record.attributes = some attrs ∧ attrs.length = segments.length ∧
        ∀ k, k < segments.length → ∃ (seg : Segment) (el : Image) (entry : Attribute)
            (dir name t v w o : Str),
          segments.get? k = some seg ∧
          getRandomElement seg.images (world.random i k (totalWeight seg.images)) = some el ∧
          attrs.get? k = some entry ∧
          entry.trait_type = (split '-' (basename el.file)).get? 0 ∧
          entry.value = (split '-' (basename el.file)).get? 1 ∧
          el.file = dir ++ "/".toList ++ name ∧ basename el.file = name ∧
          MatchesGrammar name t v w o ∧
          entry.trait_type = some t ∧ entry.value = some v) ∧
    (∀ body, (generateHandler world req).result = .response 200 body →
      (generateHandler world req).metadata.length = req.count) := by
  have hnone : ∀ (r : HandlerResult) (u : List UploadDir) (i : Nat) (record : Metadata),
      ({ result := r, uploads := u, metadata := [] } : Run).metadata.get? i = some record →
      False := by
    intro r u i record h
    simp at h
  have hmain : ∀ gateway,
      (∀ (i : Nat) (record : Metadata),
        (generateTry world req gateway).metadata.get? i = some record →
        i < req.count ∧
        ∃ segments attrs,
          getSegmentImages world.readdir ("images/".toList ++ req.imagesFolderPath)
            = .ok segments ∧
          record.attributes = some attrs ∧ attrs.length = segments.length ∧
          ∀ k, k < segments.length → ∃ (seg : Segment) (el : Image) (entry : Attribute)
              (dir name t v w o : Str),
            segments.get? k = some seg ∧
            getRandomElement seg.images (world.random i k (totalWeight seg.images)) = some el ∧
            attrs.get? k = some entry ∧
            entry.trait_type = (split '-' (basename el.file)).get? 0 ∧
            entry.value = (split '-' (basename el.file)).get? 1 ∧
            el.file = dir ++ "/".toList ++ name ∧ basename el.file = name ∧
            MatchesGrammar name t v w o ∧
            entry.trait_type = some t ∧ entry.value = some v) ∧
      (∀ body, (generateTry world req gateway).result = .response 200 body →
        (generateTry world req gateway).metadata.length = req.count) := by
    intro gateway
    rcases generateTry_cases world req gateway with
      ⟨e, h⟩ | ⟨e, h⟩ | ⟨segments, attributes, hashesImg, result, hseg, hgen, h, _⟩
    · rw [h]
      exact ⟨fun i record hr => (hnone _ _ i record hr).elim,
        fun body hb => by simp [internalServerError] at hb⟩
    · rw [h]
      exact ⟨fun i record hr => (hnone _ _ i record hr).elim,
        fun body hb => by simp [internalServerError] at hb⟩
    · rw [h]
      refine ⟨?_, fun body _ => by simp⟩
      intro i record hr
      simp only [List.get?_eq_getElem?, List.getElem?_map, Option.map_eq_some'] at hr
      obtain ⟨i2, hi2, hrec⟩ := hr
      have hi : i < req.count ∧ i2 = i := by
        have hlt : i < (List.range req.count).length := by
          by_contra hcon
          rw [List.getElem?_eq_none (by omega)] at hi2
          cases hi2
        rw [List.getElem?_eq_getElem hlt, List.getElem_range] at hi2
        simp only [Option.some.injEq] at hi2
        exact ⟨by simpa using hlt, hi2.symm⟩
      obtain ⟨hi, rfl⟩ := hi
      refine ⟨hi, ?_⟩
      obtain ⟨_, _, hnew⟩ := generateArtifacts_ok world segments req.count 0 [] attributes hgen
      obtain ⟨attrs, hattrs, hdraw⟩ := hnew i2 hi
      obtain ⟨hlen, _, hlayers⟩ := drawLayers_ok world (0 + i2) segments 0 0 0 [] attrs hdraw
      refine ⟨segments, attrs, hseg, ?_, by simpa using hlen, ?_⟩
      · rw [← hrec]
        simpa [metadataRecord] using hattrs
      · intro k hk
        obtain ⟨seg, el, hsegk, hel, hentry⟩ := hlayers k hk
        have hsegmem : seg ∈ segments := List.get?_mem hsegk
        have helmem : el ∈ seg.images := getRandomElementLoop_mem _ _ _ _ hel
        obtain ⟨dir, name, t, v, w, o, hfile, hg, _, _, _, _⟩ :=
          getSegmentImages_image world.readdir _ segments hseg seg hsegmem el helmem
        obtain ⟨hne, hslash⟩ := grammar_no_slash name t v w o hg
        have hbase : basename el.file = name := by
          rw [hfile]; exact basename_append dir name hne hslash
        obtain ⟨rest, hsplit⟩ := split_grammar name t v w o hg
        refine ⟨seg, el, layerAttribute el.file, dir, name, t, v, w, o, hsegk, ?_, ?_,
          rfl, rfl, hfile, hbase, hg, ?_, ?_⟩
        · simpa using hel
        · simpa using hentry
        · simp [layerAttribute, hbase, hsplit]
        · simp [layerAttribute, hbase, hsplit]
  unfold generateHandler
  split
  · exact ⟨fun i record hr => (hnone _ _ i record hr).elim, fun body hb => by simp at hb⟩
  · split
    · exact ⟨fun i record hr => (hnone _ _ i record hr).elim, fun body hb => by simp at hb⟩
    · exact hmain req.gatewayPinata
/-! ## Instances at concrete inputs -/

/-- C1 at a concrete pool. On the pool with weights 10, 20, 70 (total 100), 70 of the 100 draws return
the third element, and the draw 29 returns the second. -/
theorem getRandomElement_draw_count_witness :
    ((Finset.range 100).filter (fun r => getRandomPosition selectorPool r = some 2)).card = 70 ∧
    ∃ (i : Nat) (h : i < selectorPool.length),
      getRandomPosition selectorPool 29 = some i ∧
      getRandomElement selectorPool 29 = some (selectorPool.get ⟨i, h⟩) :=
  ⟨(getRandomElement_draw_count selectorPool).1 2 (by decide),
   (getRandomElement_draw_count selectorPool).2.1 29 (by decide)⟩

/-- C2 at concrete listings. The listing `0, 2` has a gap and the listing `0, 00` names the number 0 twice:
both are rejected. -/
theorem layoutStage_error_iff_witness :
    (∃ e, layoutStage ["0".toList, "2".toList] = .error e) ∧
    (∃ e, layoutStage ["0".toList, "00".toList] = .error e) :=
  ⟨(layoutStage_error_iff ["0".toList, "2".toList]).2.2 2 1 (by decide) (by decide) (by decide),
   (layoutStage_error_iff ["0".toList, "00".toList]).2.1 0 1 (by decide) (by decide)
     (by decide) (by decide)⟩

/-- C4 at a concrete catalog. The catalog of the scenario is accepted, and its two segments satisfy the
invariants. -/
theorem getSegmentImages_invariants_witness :
    getSegmentImages (readdirOf scenarioCatalog) "images/c".toList = .ok scenarioSegments ∧
    ∀ seg ∈ scenarioSegments,
      1 ≤ seg.images.length ∧ seg.images.length ≤ 100 ∧
      (seg.images.map (fun el => el.file)).Nodup ∧
      1 ≤ totalWeight seg.images ∧
      ∀ img ∈ seg.images, ∃ dir name t v w o : Str,
        img.file = dir ++ "/".toList ++ name ∧ MatchesGrammar name t v w o ∧
        (split '-' name).get? 2 = some w ∧
        img.weight = decimalValue w ∧ 1 ≤ img.weight ∧ img.weight ≤ 100 :=
  ⟨by decide,
   getSegmentImages_invariants (readdirOf scenarioCatalog) "images/c".toList scenarioSegments
     (by decide)⟩

/-- The attributes at a concrete run. The scenario of the specification: the
handler answers 200 and has written
three metadata records, the first with the attributes `bg`/`blue` and
`hat`/`none`. -/
theorem generateHandler_attributes_witness :
    (generateHandler scenarioWorld scenarioRequest).metadata.length = 3 ∧
    (generateHandler scenarioWorld scenarioRequest).metadata.map (fun m => m.attributes)
      = [some [⟨some "bg".toList, some "blue".toList⟩, ⟨some "hat".toList, some "none".toList⟩],
         some [⟨some "bg".toList, some "blue".toList⟩, ⟨some "hat".toList, some "none".toList⟩],
         some [⟨some "bg".toList, some "red".toList⟩, ⟨some "hat".toList, some "none".toList⟩]] :=
  ⟨(generateHandler_attributes scenarioWorld scenarioRequest).2
      [("message".toList, "Images and metadata generated and uploaded to IPFS!".toList),
       ("metadataDirUrl".toList, "https://gw.example/ipfs/QmMeta".toList)] (by decide),
   by decide⟩
/-! ## The gateway of the `/generate` handler -/

theorem isSuffixOf_slash_iff (g : Str) :
    "/".toList.isSuffixOf g = true ↔ ∃ p, g = p ++ "/".toList := by
  rw [List.isSuffixOf_iff_suffix]
  constructor
  · rintro ⟨p, hp⟩
    exact ⟨p, hp.symm⟩
  · rintro ⟨p, hp⟩
    exact ⟨p, hp.symm⟩

/-- Every metadata record the `try` block writes is `metadataRecord` at its index,
for the hash the pinning of the images answered. -/
theorem generateTry_records (world : World) (req : GenerateRequest) (gateway : Str)
    (i : Nat) (record : Metadata)
    (h : (generateTry world req gateway).metadata.get? i = some record) :
    ∃ attributes hashesImg,
      uploadFilesToIPFS world .compressedImages = .ok hashesImg ∧
      record = metadataRecord req gateway hashesImg attributes i := by
  unfold generateTry at h
  cases hseg : getSegmentImages world.readdir ("images/".toList ++ req.imagesFolderPath) with
  | error e => rw [hseg] at h; simp at h
  | ok segments =>
    rw [hseg] at h
    simp only at h
    cases hgen : generateArtifacts world segments req.count 0 [] with
    | error e => rw [hgen] at h; simp at h
    | ok attributes =>
      rw [hgen] at h
      simp only at h
      cases hup : uploadFilesToIPFS world .compressedImages with
      | error e => rw [hup] at h; simp at h
      | ok hashesImg =>
        rw [hup] at h
        simp only at h
        have hrec : ((List.range req.count).map
            (metadataRecord req gateway hashesImg attributes)).get? i = some record := by
          cases hup2 : uploadFilesToIPFS world .metadata with
          | error e => rw [hup2] at h; exact h
          | ok hash => rw [hup2] at h; exact h
        simp only [List.get?_eq_getElem?, List.getElem?_map, Option.map_eq_some'] at hrec
        obtain ⟨i2, hi2, hrec2⟩ := hrec
        have hlt : i < (List.range req.count).length := by
          by_contra hcon
          rw [List.getElem?_eq_none (by omega)] at hi2
          cases hi2
        rw [List.getElem?_eq_getElem hlt, List.getElem_range] at hi2
        simp only [Option.some.injEq] at hi2
        subst hi2
        exact ⟨attributes, hashesImg, rfl, hrec2.symm⟩

/-- C11 (the code departs from the claim). For a gateway `p + '/'`, and so for a
gateway `p + '/ipfs/'`, the handler does not continue with `p`: the assignment to
the `const` name `gatewayPinata` throws, the handler ends with the exception
`Assignment to constant variable.` passed to `next`, and nothing is uploaded or
written. Only for a gateway with no trailing `/` does the handler go on, with the
gateway unchanged, and every metadata record it then writes at an index `i` has
the image URL `<gateway>/ipfs/<hash>/<i>.png`. -/
theorem generateHandler_gateway (world : World) (req : GenerateRequest) :
    (∀ p, req.gatewayPinata = p ++ "/".toList →
      generateHandler world req =
        { result := .passedToNext "Assignment to constant variable.".toList,
          uploads := [], metadata := [] }) ∧
    (∀ p, req.gatewayPinata = p ++ "/ipfs/".toList →
      generateHandler world req =
        { result := .passedToNext "Assignment to constant variable.".toList,
          uploads := [], metadata := [] }) ∧
    ((¬ ∃ p, req.gatewayPinata = p ++ "/".toList) →
      generateHandler world req = generateTry world req req.gatewayPinata ∧
      ∀ (i : Nat) (record : Metadata),
        (generateHandler world req).metadata.get? i = some record →
        ∃ hashesImg, uploadFilesToIPFS world .compressedImages = .ok hashesImg ∧
          record.image = req.gatewayPinata ++ "/ipfs/".toList ++ hashesImg ++ "/".toList
            ++ natToStr i ++ ".png".toList) := by
  have hslash : ∀ p, req.gatewayPinata = p ++ "/".toList →
      generateHandler world req =
        { result := .passedToNext "Assignment to constant variable.".toList,
          uploads := [], metadata := [] } := by
    intro p hp
    have hsuf : "/".toList.isSuffixOf req.gatewayPinata = true :=
      (isSuffixOf_slash_iff _).2 ⟨p, hp⟩
    unfold generateHandler
    rw [if_pos hsuf]
  refine ⟨hslash, ?_, ?_⟩
  · intro p hp
    apply hslash (p ++ "/ipfs".toList)
    rw [hp]
    simp [String.toList]
  · intro hno
    have hsuf : ¬ "/".toList.isSuffixOf req.gatewayPinata = true := fun h =>
      hno ((isSuffixOf_slash_iff _).1 h)
    have hsuf2 : ¬ "/ipfs/".toList.isSuffixOf req.gatewayPinata = true := by
      intro h
      rw [List.isSuffixOf_iff_suffix] at h
      obtain ⟨p, hp⟩ := h
      apply hno
      refine ⟨p ++ "/ipfs".toList, ?_⟩
      rw [← hp]
      simp [String.toList]
    have heq : generateHandler world req = generateTry world req req.gatewayPinata := by
      unfold generateHandler
      rw [if_neg hsuf, if_neg hsuf2]
    refine ⟨heq, ?_⟩
    intro i record hrec
    rw [heq] at hrec
    obtain ⟨attributes, hashesImg, hup, hr⟩ :=
      generateTry_records world req req.gatewayPinata i record hrec
    exact ⟨hashesImg, hup, by rw [hr]; rfl⟩

/-- C11 at concrete requests. The scenario with the gateway `https://gw.example/`
and with `https://gw.example/ipfs/` ends in the exception, with no upload and no
metadata; with `https://gw.example` it writes the three image URLs
`https://gw.example/ipfs/QmImages/<i>.png`. -/
theorem generateHandler_gateway_witness :
    generateHandler scenarioWorld slashRequest =
      { result := .passedToNext "Assignment to constant variable.".toList,
        uploads := [], metadata := [] } ∧
    generateHandler scenarioWorld ipfsRequest =
      { result := .passedToNext "Assignment to constant variable.".toList,
        uploads := [], metadata := [] } ∧
    (generateHandler scenarioWorld scenarioRequest).metadata.map (fun m => m.image)
      = ["https://gw.example/ipfs/QmImages/0.png".toList,
         "https://gw.example/ipfs/QmImages/1.png".toList,
         "https://gw.example/ipfs/QmImages/2.png".toList] :=
  ⟨(generateHandler_gateway scenarioWorld slashRequest).1 "https://gw.example".toList
      (by decide),
   (generateHandler_gateway scenarioWorld ipfsRequest).2.1 "https://gw.example".toList
      (by decide),
   by decide⟩
/-! ## The dimension check on decoded images -/

/-- Two quotients with the same rounding have cross products within a relative
`2^-53` of each other. -/
theorem roundQuotient_cross (a b c d : Nat) (ha : 0 < a) (hb : 0 < b) (hc : 0 < c)
    (hd : 0 < d) (h : roundQuotient a b = roundQuotient c d) :
    (a * d) * 2 ^ 53 ≤ a * d + b * c + (b * c) * 2 ^ 53 ∧
    (b * c) * 2 ^ 53 ≤ a * d + b * c + (a * d) * 2 ^ 53 := by
  have hx := roundQuotient_error a b ha hb
  have hy := roundQuotient_error c d hc hd
  rw [← h] at hy
  generalize quotientValue (roundQuotient a b) = v at hx hy
  have hbq : (0 : ℚ) < b := by exact_mod_cast hb
  have hdq : (0 : ℚ) < d := by exact_mod_cast hd
  rw [abs_le] at hx hy
  have h1 : (a : ℚ) / b - c / d ≤ ((a : ℚ) / b + c / d) / 2 ^ 53 := by
    have : ((a : ℚ) / b + c / d) / 2 ^ 53 = a / b / 2 ^ 53 + c / d / 2 ^ 53 := by ring
    linarith [hx.1, hx.2, hy.1, hy.2]
  have h2 : (c : ℚ) / d - a / b ≤ ((a : ℚ) / b + c / d) / 2 ^ 53 := by
    have : ((a : ℚ) / b + c / d) / 2 ^ 53 = a / b / 2 ^ 53 + c / d / 2 ^ 53 := by ring
    linarith [hx.1, hx.2, hy.1, hy.2]
  have hsum : (a : ℚ) / b + c / d = ((a : ℚ) * d + b * c) / (b * d) := by
    field_simp
    ring
  have hdiff1 : (a : ℚ) / b - c / d = ((a : ℚ) * d - b * c) / (b * d) := by
    field_simp
  have hdiff2 : (c : ℚ) / d - a / b = ((b : ℚ) * c - a * d) / (b * d) := by
    field_simp
    ring
  have hbd : (0 : ℚ) < b * d := mul_pos hbq hdq
  rw [hsum, hdiff1, div_div, div_le_div_iff₀ hbd (by positivity)] at h1
  rw [hsum, hdiff2, div_div, div_le_div_iff₀ hbd (by positivity)] at h2
  have h1' : ((a : ℚ) * d - b * c) * 2 ^ 53 ≤ (a : ℚ) * d + b * c := by
    have : ((a : ℚ) * d - b * c) * 2 ^ 53 * (b * d) ≤ ((a : ℚ) * d + b * c) * (b * d) := by
      linarith
    exact le_of_mul_le_mul_right this hbd
  have h2' : ((b : ℚ) * c - a * d) * 2 ^ 53 ≤ (a : ℚ) * d + b * c := by
    have : ((b : ℚ) * c - a * d) * 2 ^ 53 * (b * d) ≤ ((a : ℚ) * d + b * c) * (b * d) := by
      linarith
    exact le_of_mul_le_mul_right this hbd
  constructor
  · have : ((a : ℚ) * d) * 2 ^ 53 ≤ (a : ℚ) * d + b * c + ((b : ℚ) * c) * 2 ^ 53 := by
      linarith
    exact_mod_cast this
  · have : ((b : ℚ) * c) * 2 ^ 53 ≤ (a : ℚ) * d + b * c + ((a : ℚ) * d) * 2 ^ 53 := by
      linarith
    exact_mod_cast this

/-- Two fractions of fewer than `2^52` in numerator times denominator each are
equal when their quotients round to the same double. -/
theorem roundQuotient_injective_of_area (a b c d : Nat) (ha : 0 < a) (hb : 0 < b)
    (hc : 0 < c) (hd : 0 < d) (h : roundQuotient a b = roundQuotient c d)
    (hab : a * b < 2 ^ 52) (hcd : c * d < 2 ^ 52) : a * d = b * c := by
  obtain ⟨h1, h2⟩ := roundQuotient_cross a b c d ha hb hc hd h
  have hprod : (a * d) * (b * c) < 2 ^ 52 * 2 ^ 52 := by
    have : (a * d) * (b * c) = (a * b) * (c * d) := by ring
    rw [this]
    exact Nat.mul_lt_mul'' hab hcd
  by_contra hne
  generalize a * d = X at h1 h2 hprod hne
  generalize b * c = Y at h1 h2 hprod hne
  have hX : 2 ^ 52 ≤ X := by omega
  have hY : 2 ^ 52 ≤ Y := by omega
  have := Nat.mul_le_mul hX hY
  omega

/-- On fractions of fewer than `2^52` in numerator times denominator the
JavaScript quotients are equal exactly when the fractions are. -/
theorem jsDivide_eq_iff_of_area (a b c d : Nat) (ha : 0 < a) (hb : 0 < b) (hc : 0 < c)
    (hd : 0 < d) (hab : a * b < 2 ^ 52) (hcd : c * d < 2 ^ 52) :
    jsDivide a b = jsDivide c d ↔ a * d = b * c := by
  have hg1 : 0 < Nat.gcd a b := Nat.gcd_pos_of_pos_right a hb
  have hg2 : 0 < Nat.gcd c d := Nat.gcd_pos_of_pos_right c hd
  have ha2 : a / Nat.gcd a b * Nat.gcd a b = a := Nat.div_mul_cancel (Nat.gcd_dvd_left a b)
  have hb2 : b / Nat.gcd a b * Nat.gcd a b = b := Nat.div_mul_cancel (Nat.gcd_dvd_right a b)
  have hc2 : c / Nat.gcd c d * Nat.gcd c d = c := Nat.div_mul_cancel (Nat.gcd_dvd_left c d)
  have hd2 : d / Nat.gcd c d * Nat.gcd c d = d := Nat.div_mul_cancel (Nat.gcd_dvd_right c d)
  have ha1 : 0 < a / Nat.gcd a b := Nat.div_pos (Nat.le_of_dvd ha (Nat.gcd_dvd_left a b)) hg1
  have hb1 : 0 < b / Nat.gcd a b := Nat.div_pos (Nat.le_of_dvd hb (Nat.gcd_dvd_right a b)) hg1
  have hc1 : 0 < c / Nat.gcd c d := Nat.div_pos (Nat.le_of_dvd hc (Nat.gcd_dvd_left c d)) hg2
  have hd1 : 0 < d / Nat.gcd c d := Nat.div_pos (Nat.le_of_dvd hd (Nat.gcd_dvd_right c d)) hg2
  rw [jsDivide_pos a b ha hb, jsDivide_pos c d hc hd]
  constructor
  · intro h
    have hr : roundQuotient (a / Nat.gcd a b) (b / Nat.gcd a b)
        = roundQuotient (c / Nat.gcd c d) (d / Nat.gcd c d) := by
      injection h with h1 h2
      exact Prod.ext h1 h2
    have hab1 : a / Nat.gcd a b * (b / Nat.gcd a b) < 2 ^ 52 :=
      lt_of_le_of_lt (Nat.mul_le_mul (Nat.div_le_self _ _) (Nat.div_le_self _ _)) hab
    have hcd1 : c / Nat.gcd c d * (d / Nat.gcd c d) < 2 ^ 52 :=
      lt_of_le_of_lt (Nat.mul_le_mul (Nat.div_le_self _ _) (Nat.div_le_self _ _)) hcd
    have hcross := roundQuotient_injective_of_area _ _ _ _ ha1 hb1 hc1 hd1 hr hab1 hcd1
    calc a * d = (a / Nat.gcd a b * Nat.gcd a b) * (d / Nat.gcd c d * Nat.gcd c d) := by
          rw [ha2, hd2]
      _ = (a / Nat.gcd a b * (d / Nat.gcd c d)) * (Nat.gcd a b * Nat.gcd c d) := by ring
      _ = (b / Nat.gcd a b * (c / Nat.gcd c d)) * (Nat.gcd a b * Nat.gcd c d) := by
          rw [hcross]
      _ = (b / Nat.gcd a b * Nat.gcd a b) * (c / Nat.gcd c d * Nat.gcd c d) := by ring
      _ = b * c := by rw [hb2, hc2]
  · intro h
    obtain ⟨e1, e2⟩ := lowest_terms_eq a b c d hb hd h
    rw [e1, e2]

/-- C6. For every first drawn image of size `(w0, h0)` and every later drawn
image of size `(w, h)`, both sizes being those of decoded images (positive sides,
fewer than `2^52` pixels), the composition loop finds no mismatch, and so accepts
the later layer, if and only if `w0 * h = h0 * w`: on the images the loop can
draw, comparing the floating-point quotients decides the exact equality of the
aspect ratios. -/
theorem dimensionsMismatch_iff_of_decoded (w0 h0 w h : Nat)
    (hfirst : DecodedSize w0 h0) (hlater : DecodedSize w h) :
    dimensionsMismatch w0 h0 w h = false ↔ w0 * h = h0 * w := by
  obtain ⟨hw0, hh0, ha0⟩ := hfirst
  obtain ⟨hw, hh, ha⟩ := hlater
  have hfin : ∀ a b : Nat, 0 < a → 0 < b → jsDivide a b ≠ .nan := by
    intro a b ha hb
    rw [jsDivide_pos a b ha hb]
    intro hcon
    cases hcon
  unfold dimensionsMismatch
  by_cases hge : w0 ≥ h0
  · rw [if_pos hge, strictNotEqual_finite _ _ (hfin _ _ hw0 hh0) (hfin _ _ hw hh),
      jsDivide_eq_iff_of_area w0 h0 w h hw0 hh0 hw hh ha0 ha]
  · rw [if_neg hge, strictNotEqual_finite _ _ (hfin _ _ hh0 hw0) (hfin _ _ hh hw),
      jsDivide_eq_iff_of_area h0 w0 h w hh0 hw0 hh hw (by rw [Nat.mul_comm]; exact ha0)
        (by rw [Nat.mul_comm]; exact ha)]
    constructor <;> intro h2 <;> omega

/-- C6 at concrete sizes. The examples of the specification: after a first layer
of 512 x 512 a layer of 1024 x 1024 is accepted and one of 512 x 256 is not; and
a portrait pair 1080 x 1920, 720 x 1280 is accepted. -/
theorem dimensionsMismatch_iff_of_decoded_witness :
    (dimensionsMismatch 512 512 1024 1024 = false ↔ 512 * 1024 = 512 * 1024) ∧
    (dimensionsMismatch 512 512 512 256 = false ↔ 512 * 256 = 512 * 512) ∧
    (dimensionsMismatch 1080 1920 720 1280 = false ↔ 1080 * 1280 = 1920 * 720) ∧
    dimensionsMismatch 512 512 1024 1024 = false ∧
    dimensionsMismatch 512 512 512 256 = true :=
  ⟨dimensionsMismatch_iff_of_decoded 512 512 1024 1024 (by decide) (by decide),
   dimensionsMismatch_iff_of_decoded 512 512 512 256 (by decide) (by decide),
   dimensionsMismatch_iff_of_decoded 1080 1920 720 1280 (by decide) (by decide),
   by decide, by decide⟩

/-- C8 (the code departs from the claim). On the catalog of eleven segments, whose
root is listed `0, 1, 10, 2, ..., 9`, the handler answers 200 and the one record
it writes carries eleven attributes in the order of the listing: the entry at
position 2 is `frame`/`j`, drawn from sub-folder `10`, and `eyes`/`b`, drawn from
sub-folder `2`, comes at position 3. -/
theorem generateHandler_attributes_follow_listing :
    (generateHandler elevenWorld elevenRequest).result =
      .response 200
        [("message".toList, "Images and metadata generated and uploaded to IPFS!".toList),
         ("metadataDirUrl".toList, "https://gw.example/ipfs/QmMeta".toList)] ∧
    (generateHandler elevenWorld elevenRequest).metadata.map (fun m => m.attributes) =
      [some [⟨some "sky".toList, some "blue".toList⟩, ⟨some "body".toList, some "a".toList⟩,
        ⟨some "frame".toList, some "j".toList⟩, ⟨some "eyes".toList, some "b".toList⟩,
        ⟨some "nose".toList, some "c".toList⟩, ⟨some "mouth".toList, some "d".toList⟩,
        ⟨some "hair".toList, some "e".toList⟩, ⟨some "ears".toList, some "f".toList⟩,
        ⟨some "shirt".toList, some "g".toList⟩, ⟨some "scarf".toList, some "h".toList⟩,
        ⟨some "hat".toList, some "i".toList⟩]] := by
  constructor <;> decide

end NftGen
